import Mathlib

/-!
Shallow embedding of the Bitfreeze servers.

The repository contains several near-duplicate server programs:
  * `src/Index.js`  — node-persist storage, deposits with Daraja STK push and an
    M-PESA callback, admin deposit confirmation, withdrawals with admin
    approval, referral rewards, and a daily-earnings cron job (namespace
    `Persist` below);
  * `src/index.js`  — two concatenated MongoDB + Telegram variants (offer
    codes, offer fridges with a time-boxed payout, Telegram approve/reject
    handlers, a daily-earnings interval job) — namespace `Mongo` below, which
    follows the second, fuller variant; where the two variants differ in a way
    a claim depends on, the embedding notes it;
  * `src/unnamed/part_000` — a MongoDB prototype with a dummy offer-code
    endpoint (namespace `Part0`).

JavaScript numbers are embedded as `Int` (every arithmetic operation the
claims touch is integral); timestamps (`Date.now()`) are `Int` milliseconds;
JS objects used as keyed stores are association lists in insertion order, and
MongoDB collections are lists of documents in insertion order.
-/

namespace Bitfreeze

/-- JS `s.startsWith(p)`, written over the character list so that it reduces
inside the kernel. -/
def strStarts (s p : String) : Bool := p.data.isPrefixOf s.data

/-- JS `s.toUpperCase()` (ASCII, the only characters the code compares),
written over the character list so that it reduces inside the kernel. -/
def strUpper (s : String) : String := ⟨s.data.map Char.toUpper⟩

/-- Replace the first element satisfying `p` by its image under `f`; used to
model both assignment to an existing key of a JS object and a Mongoose
document save. -/
def updFirst (p : α → Bool) (f : α → α) : List α → List α
  | [] => []
  | x :: xs => if p x then f x :: xs else x :: updFirst p f xs

namespace Persist

/-- Catalog entry of `src/Index.js` (`FRIDGES`). -/
structure Fridge where
  id : String
  name : String
  price : Int
  dailyEarn : Int
deriving DecidableEq, Repr

/-- The fixed catalog of `src/Index.js`. -/
def FRIDGES : List Fridge := [
  ⟨"2ft", "2 ft Fridge", 500, 25⟩,
  ⟨"4ft", "4 ft Fridge", 1000, 55⟩,
  ⟨"6ft", "6 ft Fridge", 2000, 100⟩,
  ⟨"8ft", "8 ft Fridge", 4000, 150⟩,
  ⟨"10ft", "10 ft Fridge", 6000, 250⟩,
  ⟨"12ft", "12 ft Fridge", 8000, 350⟩]

/-- One referral rule (`{min, reward}`). -/
structure Rule where
  min : Int
  reward : Int
deriving DecidableEq, Repr

/-- The fixed descending referral table `REFERRAL_RULES` of `src/Index.js`. -/
def REFERRAL_RULES : List Rule :=
  [⟨8000, 500⟩, ⟨6000, 350⟩, ⟨4000, 250⟩, ⟨2000, 150⟩, ⟨1000, 100⟩, ⟨500, 50⟩]

/-- A purchased fridge as pushed by `/api/buy`. -/
structure Holding where
  id : String
  name : String
  price : Int
  boughtAt : Int
deriving DecidableEq, Repr

/-- A user record as created by `/api/register` of `src/Index.js`. -/
structure User where
  email : String
  phone : Option String
  password : String
  balance : Int
  fridges : List Holding
  refCode : String
  referredBy : Option String
  lastDailyCredit : Int
  createdAt : Int
deriving DecidableEq, Repr

inductive DepStatus
  | pending
  | confirmed
  | failed
deriving DecidableEq, Repr

/-- A deposit record as written by `recordDeposit`. -/
structure Deposit where
  id : String
  user : String
  amount : Int
  phone : Option String
  status : DepStatus
  createdAt : Int
  darajaRef : Option String
  confirmedAt : Option Int
deriving DecidableEq, Repr

inductive WStatus
  | pending
  | approved
  | rejected
deriving DecidableEq, Repr

/-- A withdrawal request record of `src/Index.js`; `approvedAt`, `rejectedAt`
and `rejectionReason` are added dynamically by the admin handlers. -/
structure Withdrawal where
  id : String
  user : String
  amount : Int
  phone : String
  status : WStatus
  requestedAt : Int
  approvedAt : Option Int := none
  rejectedAt : Option Int := none
  rejectionReason : Option String := none
deriving DecidableEq, Repr

/-- The persisted state: the four node-persist keys `users`, `deposits`,
`withdrawals` and `meta.lastDailyRun`. -/
structure St where
  users : List User
  deposits : List Deposit
  withdrawals : List Withdrawal
  lastDailyRun : Int
deriving DecidableEq, Repr

def findUserByEmail (users : List User) (email : String) : Option User :=
  users.find? (·.email == email)

/-- JS `users[u.email] = u` followed by a full write-back: overwrite the
existing key or append a new one. -/
def putUser (u : User) (users : List User) : List User :=
  if users.any (·.email == u.email) then
    updFirst (·.email == u.email) (fun _ => u) users
  else users ++ [u]

def findDeposit (deposits : List Deposit) (id : String) : Option Deposit :=
  deposits.find? (·.id == id)

def putDeposit (d : Deposit) (deposits : List Deposit) : List Deposit :=
  if deposits.any (·.id == d.id) then
    updFirst (·.id == d.id) (fun _ => d) deposits
  else deposits ++ [d]

def findWithdrawal (ws : List Withdrawal) (id : String) : Option Withdrawal :=
  ws.find? (·.id == id)

def putWithdrawal (w : Withdrawal) (ws : List Withdrawal) : List Withdrawal :=
  if ws.any (·.id == w.id) then
    updFirst (·.id == w.id) (fun _ => w) ws
  else ws ++ [w]

/-- The referrer scan of `applyReferral`: first user whose `refCode` or
`email` equals the `referredBy` value. -/
def findReferrer (users : List User) (referredBy : String) : Option User :=
  users.find? (fun u => u.refCode == referredBy || u.email == referredBy)

/-- `applyReferral(amount, userEmail)` of `src/Index.js`: on a confirmed
deposit, pay the first (highest-min, table descending) matching referral rule
to the referrer. -/
def applyReferral (amount : Int) (userEmail : String) (users : List User) : List User :=
  match findUserByEmail users userEmail with
  | none => users
  | some user =>
    match user.referredBy with
    | none => users
    | some referredBy =>
      match findReferrer users referredBy with
      | none => users
      | some refUser =>
        match REFERRAL_RULES.find? (fun r => decide (r.min ≤ amount)) with
        | none => users
        | some rule =>
          putUser { refUser with balance := refUser.balance + rule.reward } users

inductive RegisterResult
  | missingFields
  | userExists
  | registered
deriving DecidableEq, Repr

/-- `/api/register` of `src/Index.js`.  The random `makeId(6)` referral code
is passed in as `refCode`; the bcrypt hash is kept opaque as the given
`password` string. -/
def register (email password : String) (phone ref : Option String)
    (refCode : String) (now : Int) (st : St) : RegisterResult × St :=
  if email = "" || password = "" then (.missingFields, st)
  else if st.users.any (·.email == email) then (.userExists, st)
  else
    (.registered, { st with users := st.users ++
      [{ email := email, phone := phone, password := password, balance := 0,
         fridges := [], refCode := refCode, referredBy := ref,
         lastDailyCredit := 0, createdAt := now }] })

/-- `recordDeposit` of `src/Index.js`; the random `makeId(12)` id is passed
in. -/
def recordDeposit (id userEmail : String) (amount : Int) (phone : Option String)
    (status : DepStatus) (darajaRef : Option String) (now : Int)
    (deposits : List Deposit) : List Deposit :=
  putDeposit
    { id := id, user := userEmail, amount := amount, phone := phone,
      status := status, createdAt := now, darajaRef := darajaRef,
      confirmedAt := none } deposits

inductive DepositResult
  | invalidAmount
  | phoneRequired
  | userNotFound
  | stkInitiated (depositId : String)
  | simulatedConfirmed (depositId : String) (balance : Int)
  | recordedPending (depositId : String)
deriving DecidableEq, Repr

/-- `/api/deposit` of `src/Index.js`.  `darajaRef = some ref` embeds the path
where Daraja is fully configured and the STK push succeeds (the gateway
checkout id is `ref`); otherwise `simulate` selects between the
`SIMULATE_MPESA` immediate confirmation and the manual-pending branch. -/
def deposit (email : String) (amount : Int) (phone : String) (simulate : Bool)
    (darajaRef : Option String) (id : String) (now : Int) (st : St) :
    DepositResult × St :=
  if amount ≤ 0 then (.invalidAmount, st)
  else if phone = "" then (.phoneRequired, st)
  else
    match findUserByEmail st.users email with
    | none => (.userNotFound, st)
    | some user =>
      match darajaRef with
      | some ref =>
        (.stkInitiated id,
         { st with deposits :=
             recordDeposit id user.email amount (some phone) .pending (some ref) now st.deposits })
      | none =>
        if simulate then
          let deposits1 :=
            recordDeposit id user.email amount (some phone) .confirmed none now st.deposits
          let user1 := { user with balance := user.balance + amount }
          let users1 := applyReferral amount user.email (putUser user1 st.users)
          (.simulatedConfirmed id user1.balance, { st with deposits := deposits1, users := users1 })
        else
          (.recordedPending id,
           { st with deposits :=
               recordDeposit id user.email amount (some phone) .pending none now st.deposits })

inductive CallbackResult
  | ignoredNoId
  | noMatchingDeposit
  | okConfirmed
  | notSuccess
deriving DecidableEq, Repr

/-- `/api/mpesa/callback` of `src/Index.js`.  `checkoutId` is the
`CheckoutRequestID`/`MerchantRequestID` extracted from the body, `success`
summarizes the `ResultCode === 0` / `status === Success` test.  Note: the
handler does not check whether the matched deposit was already confirmed. -/
def mpesaCallback (checkoutId : Option String) (success : Bool) (now : Int)
    (st : St) : CallbackResult × St :=
  match checkoutId with
  | none => (.ignoredNoId, st)
  | some cid =>
    match st.deposits.find? (fun d => d.darajaRef == some cid) with
    | none => (.noMatchingDeposit, st)
    | some found =>
      if success then
        let found1 := { found with status := .confirmed, confirmedAt := some now }
        let deposits1 := putDeposit found1 st.deposits
        match findUserByEmail st.users found1.user with
        | none => (.okConfirmed, { st with deposits := deposits1 })
        | some user =>
          let user1 := { user with balance := user.balance + found1.amount }
          let users1 := applyReferral found1.amount user.email (putUser user1 st.users)
          (.okConfirmed, { st with deposits := deposits1, users := users1 })
      else
        let found1 := { found with status := .failed }
        (.notSuccess, { st with deposits := putDeposit found1 st.deposits })

inductive ConfirmResult
  | notFound
  | alreadyConfirmed
  | userNotFound
  | confirmedOk (balance : Int)
deriving DecidableEq, Repr

/-- `/api/admin/deposits/confirm` of `src/Index.js`: an already-confirmed
record is answered with `Already confirmed` and nothing changes; otherwise the
record is confirmed, the balance credited and the referral applied. -/
def confirmDeposit (depositId : String) (now : Int) (st : St) : ConfirmResult × St :=
  match findDeposit st.deposits depositId with
  | none => (.notFound, st)
  | some d0 =>
    if d0.status = .confirmed then (.alreadyConfirmed, st)
    else
      let d1 := { d0 with status := .confirmed, confirmedAt := some now }
      let deposits1 := putDeposit d1 st.deposits
      match findUserByEmail st.users d1.user with
      | none => (.userNotFound, { st with deposits := deposits1 })
      | some user =>
        let user1 := { user with balance := user.balance + d1.amount }
        let users1 := applyReferral d1.amount d1.user (putUser user1 st.users)
        (.confirmedOk user1.balance, { st with deposits := deposits1, users := users1 })

inductive BuyResult
  | invalidFridge
  | userNotFound
  | insufficientBalance
  | bought (balance : Int)
deriving DecidableEq, Repr

/-- `/api/buy` of `src/Index.js`. -/
def buy (email fridgeId : String) (now : Int) (st : St) : BuyResult × St :=
  match FRIDGES.find? (·.id == fridgeId) with
  | none => (.invalidFridge, st)
  | some item =>
    match findUserByEmail st.users email with
    | none => (.userNotFound, st)
    | some user =>
      if user.balance < item.price then (.insufficientBalance, st)
      else
        let h : Holding :=
          { id := item.id, name := item.name, price := item.price, boughtAt := now }
        let user1 :=
          { user with balance := user.balance - item.price, fridges := user.fridges ++ [h] }
        (.bought user1.balance, { st with users := putUser user1 st.users })

/-- The `sort((a,b) => b.confirmedAt - a.confirmedAt)[0]` pick of
`/api/withdraw` in `src/Index.js`: the earliest deposit with the maximal
`confirmedAt` among the confirmed deposits of the user (stable descending sort).  A
confirmed deposit that never received a `confirmedAt` (the simulated path)
sorts as 0. -/
def latestConfirmedDeposit (deposits : List Deposit) (email : String) : Option Deposit :=
  (deposits.filter (fun d => d.user == email && d.status == DepStatus.confirmed)).foldl
    (fun acc d =>
      match acc with
      | none => some d
      | some b => if b.confirmedAt.getD 0 < d.confirmedAt.getD 0 then some d else acc)
    none

inductive PWithdrawResult
  | invalidAmount
  | phoneRequired
  | belowMinimum
  | userNotFound
  | insufficientBalance
  | noDepositPhone
  | phoneMismatch
  | created (requestId : String)
deriving DecidableEq, Repr

/-- `/api/withdraw` of `src/Index.js` (request creation; the debit happens on
admin approval). -/
def withdrawRequest (email : String) (amount : Int) (phone : String)
    (id : String) (now : Int) (st : St) : PWithdrawResult × St :=
  if amount ≤ 0 then (.invalidAmount, st)
  else if phone = "" then (.phoneRequired, st)
  else if amount < 200 then (.belowMinimum, st)
  else
    match findUserByEmail st.users email with
    | none => (.userNotFound, st)
    | some user =>
      if user.balance < amount then (.insufficientBalance, st)
      else
        match latestConfirmedDeposit st.deposits user.email with
        | none => (.noDepositPhone, st)
        | some dep =>
          if dep.phone ≠ some phone then (.phoneMismatch, st)
          else
            (.created id,
             { st with withdrawals := st.withdrawals ++
                 [{ id := id, user := user.email, amount := amount, phone := phone,
                    status := .pending, requestedAt := now }] })

inductive ApproveResult
  | notFound
  | alreadyProcessed
  | userNotFound
  | insufficientBalance
  | approvedOk (balance : Int)
deriving DecidableEq, Repr

/-- `/api/admin/withdraws/approve` of `src/Index.js`: a non-pending record is
answered `Already processed` and nothing changes; otherwise the balance is
re-checked at approval time, debited, and the record moves to `approved`. -/
def approveWithdrawal (id : String) (now : Int) (st : St) : ApproveResult × St :=
  match findWithdrawal st.withdrawals id with
  | none => (.notFound, st)
  | some w =>
    if w.status ≠ .pending then (.alreadyProcessed, st)
    else
      match findUserByEmail st.users w.user with
      | none => (.userNotFound, st)
      | some user =>
        if user.balance < w.amount then (.insufficientBalance, st)
        else
          let user1 := { user with balance := user.balance - w.amount }
          let w1 := { w with status := .approved, approvedAt := some now }
          (.approvedOk user1.balance,
           { st with users := putUser user1 st.users,
                     withdrawals := putWithdrawal w1 st.withdrawals })

inductive RejectResult
  | notFound
  | alreadyProcessed
  | rejectedOk
deriving DecidableEq, Repr

/-- `/api/admin/withdraws/reject` of `src/Index.js` (`reason = none` models a
missing reason, stored as the string `Rejected`). -/
def rejectWithdrawal (id : String) (reason : Option String) (now : Int) (st : St) :
    RejectResult × St :=
  match findWithdrawal st.withdrawals id with
  | none => (.notFound, st)
  | some w =>
    if w.status ≠ .pending then (.alreadyProcessed, st)
    else
      let w1 := { w with status := .rejected, rejectedAt := some now,
                         rejectionReason := some (reason.getD "Rejected") }
      (.rejectedOk, { st with withdrawals := putWithdrawal w1 st.withdrawals })

/-- The per-user credit of the daily cron of `src/Index.js`:
`if (cfg && cfg.dailyEarn) credit += cfg.dailyEarn` over the fridges of the user
(`cfg.dailyEarn` truthy means nonzero). -/
def cronCredit (fridges : List Holding) : Int :=
  fridges.foldl
    (fun acc f =>
      match FRIDGES.find? (fun x => x.id == f.id) with
      | some cfg => if cfg.dailyEarn ≠ 0 then acc + cfg.dailyEarn else acc
      | none => acc)
    0

/-- The `cron.schedule` daily-earnings job of `src/Index.js`: skip entirely if
the persisted `lastDailyRun` is less than 20 hours old, otherwise credit every
user with fridges and record the run time. -/
def dailyCron (now : Int) (st : St) : St :=
  if now - st.lastDailyRun < 20 * 60 * 60 * 1000 then st
  else
    let users1 := st.users.foldl
      (fun acc u =>
        if u.fridges.isEmpty then acc
        else
          let credit := cronCredit u.fridges
          if 0 < credit then putUser { u with balance := u.balance + credit } acc
          else acc)
      st.users
    { st with users := users1, lastDailyRun := now }

/-- A JSON value appearing in the `/api/me` response object. -/
inductive JVal
  | s (v : String)
  | n (v : Int)
  | optS (v : Option String)
  | holdings (v : List Holding)
deriving DecidableEq, Repr

/-- The full stored user document of `src/Index.js` as a JSON object
(key-value list in field order). -/
def userJson (u : User) : List (String × JVal) := [
  ("email", .s u.email), ("phone", .optS u.phone), ("password", .s u.password),
  ("balance", .n u.balance), ("fridges", .holdings u.fridges),
  ("refCode", .s u.refCode), ("referredBy", .optS u.referredBy),
  ("lastDailyCredit", .n u.lastDailyCredit), ("createdAt", .n u.createdAt)]

/-- `/api/me` of `src/Index.js`: `const (whole) password, ...safe (rest) = user`
drops the `password` key and the rest is returned. -/
def apiMe (email : String) (st : St) : Option (List (String × JVal)) :=
  match findUserByEmail st.users email with
  | none => none
  | some user => some ((userJson user).filter (fun kv => kv.1 ≠ "password"))

/-- One request against the `src/Index.js` server, with the wall-clock and
random values (ids, referral codes, gateway refs) made explicit. -/
inductive Op
  | register (email password : String) (phone ref : Option String) (refCode : String) (now : Int)
  | deposit (email : String) (amount : Int) (phone : String) (simulate : Bool)
      (darajaRef : Option String) (id : String) (now : Int)
  | callback (checkoutId : Option String) (success : Bool) (now : Int)
  | adminConfirm (depositId : String) (now : Int)
  | buy (email fridgeId : String) (now : Int)
  | withdrawReq (email : String) (amount : Int) (phone : String) (id : String) (now : Int)
  | approve (id : String) (now : Int)
  | reject (id : String) (reason : Option String) (now : Int)
  | cron (now : Int)
deriving DecidableEq, Repr

def step (st : St) : Op → St
  | .register e p ph r rc now => (register e p ph r rc now st).2
  | .deposit e a ph sim dr id now => (deposit e a ph sim dr id now st).2
  | .callback cid ok now => (mpesaCallback cid ok now st).2
  | .adminConfirm d now => (confirmDeposit d now st).2
  | .buy e f now => (buy e f now st).2
  | .withdrawReq e a ph id now => (withdrawRequest e a ph id now st).2
  | .approve id now => (approveWithdrawal id now st).2
  | .reject id reason now => (rejectWithdrawal id reason now st).2
  | .cron now => dailyCron now st

def run (st : St) (ops : List Op) : St := ops.foldl step st

/-- The storage as initialized by `initStorage`. -/
def init : St := { users := [], deposits := [], withdrawals := [], lastDailyRun := 0 }

end Persist

namespace Mongo

/-- A catalog entry of the mutable `FRIDGES` array of `src/index.js`.  Normal
entries carry no `durationHrs`/`startTime` keys in JS (undefined, hence
falsy); they are embedded as `0` / `none`, the values the falsiness tests
compare against. -/
structure Fridge where
  id : String
  name : String
  price : Int
  dailyEarn : Int
  durationHrs : Int
  startTime : Option Int
  locked : Bool
deriving DecidableEq, Repr

/-- The initial `FRIDGES` array of `src/index.js`. -/
def initFRIDGES : List Fridge := [
  ⟨"100", "Earning Fridge 100", 100, 5, 0, none, false⟩,
  ⟨"200", "Earning Fridge 200", 200, 10, 0, none, false⟩,
  ⟨"300", "Earning Fridge 300", 300, 15, 0, none, false⟩,
  ⟨"400", "Earning Fridge 400", 400, 20, 0, none, false⟩,
  ⟨"2ft", "2 ft Fridge", 500, 25, 0, none, false⟩,
  ⟨"4ft", "4 ft Fridge", 1000, 55, 0, none, false⟩,
  ⟨"6ft", "6 ft Fridge", 2000, 100, 0, none, false⟩,
  ⟨"8ft", "8 ft Fridge", 4000, 150, 0, none, false⟩,
  ⟨"10ft", "10 ft Fridge", 6000, 250, 0, none, false⟩,
  ⟨"12ft", "12 ft Fridge", 8000, 350, 0, none, false⟩,
  ⟨"offer1", "Offer Fridge 1", 0, 0, 0, none, true⟩,
  ⟨"offer2", "Offer Fridge 2", 0, 0, 0, none, true⟩,
  ⟨"offer3", "Offer Fridge 3", 0, 0, 0, none, true⟩,
  ⟨"offer4", "Offer Fridge 4", 0, 0, 0, none, true⟩,
  ⟨"offer5", "Offer Fridge 5", 0, 0, 0, none, true⟩,
  ⟨"offer6", "Offer Fridge 6", 0, 0, 0, none, true⟩,
  ⟨"offer7", "Offer Fridge 7", 0, 0, 0, none, true⟩,
  ⟨"offer8", "Offer Fridge 8", 0, 0, 0, none, true⟩]

/-- A fridge snapshot pushed into `user.fridges` by the Telegram payment
approval handler. -/
structure Holding where
  id : String
  name : String
  price : Int
  dailyEarn : Int
  boughtAt : Int
deriving DecidableEq, Repr

/-- A user document of the `src/index.js` schema (second variant; the first
variant lacks the two throttle timestamps). -/
structure User where
  name : String
  email : String
  password : String
  phone : String
  balance : Int
  earning : Int
  fridges : List Holding
  lastDepositAttempt : Option Int
  lastWithdrawalAttempt : Option Int
deriving DecidableEq, Repr

/-- An `OfferCode` document. -/
structure OfferCode where
  code : String
  amount : Int
  usedBy : List String
deriving DecidableEq, Repr

/-- A `Payment` document (deposit for a fridge purchase awaiting Telegram
admin approval). -/
structure Payment where
  id : String
  userEmail : String
  fridgeId : String
  fridgeName : String
  fridgePrice : Int
  phone : String
  transactionCode : String
  approved : Bool
  createdAt : Int
deriving DecidableEq, Repr

/-- A `Withdrawal` document of `src/index.js` (`approved` boolean; rejected
requests are deleted). -/
structure Withdrawal where
  id : String
  userEmail : String
  phone : String
  amount : Int
  approved : Bool
  createdAt : Int
deriving DecidableEq, Repr

/-- The MongoDB collections plus the in-process mutable catalog. -/
structure St where
  users : List User
  offerCodes : List OfferCode
  payments : List Payment
  withdrawals : List Withdrawal
  fridges : List Fridge
deriving DecidableEq, Repr

def findUser (users : List User) (email : String) : Option User :=
  users.find? (·.email == email)

/-- A Mongoose `save()` on a user document fetched by email. -/
def saveUser (u : User) (users : List User) : List User :=
  updFirst (·.email == u.email) (fun _ => u) users

/-- A Mongoose `save()` on an offer-code document fetched by code. -/
def saveOffer (o : OfferCode) (codes : List OfferCode) : List OfferCode :=
  updFirst (·.code == o.code) (fun _ => o) codes

inductive RegisterResult
  | missingFields
  | emailExists
  | registered
deriving DecidableEq, Repr

/-- `/api/register` of `src/index.js` (second variant: name, email, password
and phone all required). -/
def register (name email password phone : String) (now : Int) (st : St) :
    RegisterResult × St :=
  if name = "" || email = "" || password = "" || phone = "" then (.missingFields, st)
  else if st.users.any (·.email == email) then (.emailExists, st)
  else
    (.registered, { st with users := st.users ++
      [{ name := name, email := email, password := password, phone := phone,
         balance := 0, earning := 0, fridges := [],
         lastDepositAttempt := none, lastWithdrawalAttempt := none }] })

inductive RedeemResult
  | noCode
  | userNotFound
  | invalidCode
  | alreadyUsed
  | redeemed (amount : Int)
deriving DecidableEq, Repr

/-- `/api/offer/redeem` of `src/index.js`: credit `earning` with the code
amount unless this email already appears in the `usedBy` array. -/
def offerRedeem (email code : String) (st : St) : RedeemResult × St :=
  if code = "" then (.noCode, st)
  else
    match findUser st.users email with
    | none => (.userNotFound, st)
    | some user =>
      match st.offerCodes.find? (·.code == code) with
      | none => (.invalidCode, st)
      | some offer =>
        if offer.usedBy.contains user.email then (.alreadyUsed, st)
        else
          let user1 := { user with earning := user.earning + offer.amount }
          let offer1 := { offer with usedBy := offer.usedBy ++ [user.email] }
          (.redeemed offer.amount,
           { st with users := saveUser user1 st.users,
                     offerCodes := saveOffer offer1 st.offerCodes })

inductive OfferCodeResult
  | missingFields
  | alreadyExists
  | created
deriving DecidableEq, Repr

/-- `/api/admin/offercode` of `src/index.js` (admin guard passed).  The
`!code or !amount` test only rejects an empty code and a zero amount — a
negative amount passes. -/
def offercodeCreate (code : String) (amount : Int) (st : St) : OfferCodeResult × St :=
  if code = "" || amount = 0 then (.missingFields, st)
  else if st.offerCodes.any (·.code == code) then (.alreadyExists, st)
  else (.created, { st with offerCodes := st.offerCodes ++ [⟨code, amount, []⟩] })

/-- `/api/admin/unlock` of `src/index.js` (admin guard passed): only ids
starting with `offer` can be unlocked; price, daily earn and duration come
unvalidated from the request body. -/
def unlock (fridgeId : String) (price dailyEarn durationHrs : Int) (now : Int)
    (st : St) : St :=
  let p : Fridge → Bool := fun f => f.id == fridgeId && strStarts fridgeId "offer"
  let upd : Fridge → Fridge := fun f =>
    { f with locked := false, price := price, dailyEarn := dailyEarn,
             durationHrs := durationHrs, startTime := some now }
  if (st.fridges.find? p).isSome then { st with fridges := updFirst p upd st.fridges }
  else st

/-- `/api/admin/lock` of `src/index.js` (admin guard passed). -/
def lock (fridgeId : String) (st : St) : St :=
  let p : Fridge → Bool := fun f => f.id == fridgeId && strStarts fridgeId "offer"
  let upd : Fridge → Fridge := fun f =>
    { f with locked := true, price := 0, dailyEarn := 0,
             durationHrs := 0, startTime := none }
  if (st.fridges.find? p).isSome then { st with fridges := updFirst p upd st.fridges }
  else st

/-- Outcome of the withdrawal-request endpoint; the constructors name the
distinct error responses of `src/index.js`. -/
inductive WErr
  | userNotFound
  | pendingExists
  | invalidAmount
  | phoneMismatch
  | weekend
  | insufficientEarnings
deriving DecidableEq, Repr

def hasPendingWithdrawal (ws : List Withdrawal) (email : String) : Bool :=
  ws.any (fun w => w.userEmail == email && !w.approved)

/-- The throttle block of the withdrawal endpoint: a `lastWithdrawalAttempt`
less than 24 hours old together with a still-pending (`approved: false`)
withdrawal document. -/
def withdrawCooldown (user : User) (ws : List Withdrawal) (now : Int) : Bool :=
  match user.lastWithdrawalAttempt with
  | some t => decide (now - t < 24 * 60 * 60 * 1000) && hasPendingWithdrawal ws user.email
  | none => false

/-- `/api/withdraw` of `src/index.js` (second variant).  `day` is the Kenya
local day of week (0 = Sunday, 6 = Saturday); `wid` stands for the MongoDB id
of the created document.  The checks run in source order: pending-withdrawal
cooldown, then amount validity and the 200 minimum, then registered-phone
match, then the weekday window, then sufficient earnings. -/
def withdrawRequest (email phone : String) (amount : Int) (now : Int) (day : Nat)
    (wid : String) (st : St) : Except WErr String × St :=
  match findUser st.users email with
  | none => (.error .userNotFound, st)
  | some user =>
    if withdrawCooldown user st.withdrawals now then (.error .pendingExists, st)
    else if phone = "" || amount = 0 || amount < 200 then (.error .invalidAmount, st)
    else if user.phone ≠ phone then (.error .phoneMismatch, st)
    else if day = 0 || day = 6 then (.error .weekend, st)
    else if user.earning < amount then (.error .insufficientEarnings, st)
    else
      let w : Withdrawal :=
        { id := wid, userEmail := user.email, phone := phone, amount := amount,
          approved := false, createdAt := now }
      (.ok wid,
       { st with withdrawals := st.withdrawals ++ [w],
                 users := saveUser { user with lastWithdrawalAttempt := some now } st.users })

inductive TgResult
  | withdrawalNotFound
  | userNotFound
  | insufficientEarnings
  | approvedOk
  | rejectedOk
deriving DecidableEq, Repr

/-- The `withdraw_approve` branch of the Telegram `callback_query` handler of
`src/index.js`: re-check `earning`, debit it, set `approved = true`.  Note:
there is no check that the request was not already approved. -/
def tgWithdrawApprove (id : String) (st : St) : TgResult × St :=
  match st.withdrawals.find? (·.id == id) with
  | none => (.withdrawalNotFound, st)
  | some wd =>
    match findUser st.users wd.userEmail with
    | none => (.userNotFound, st)
    | some user =>
      if user.earning < wd.amount then (.insufficientEarnings, st)
      else
        let user1 := { user with earning := user.earning - wd.amount }
        let wd1 := { wd with approved := true }
        (.approvedOk,
         { st with users := saveUser user1 st.users,
                   withdrawals := updFirst (·.id == id) (fun _ => wd1) st.withdrawals })

/-- The `withdraw_reject` branch: `findByIdAndDelete`. -/
def tgWithdrawReject (id : String) (st : St) : TgResult × St :=
  match st.withdrawals.find? (·.id == id) with
  | none => (.withdrawalNotFound, st)
  | some wd =>
    match findUser st.users wd.userEmail with
    | none => (.userNotFound, st)
    | some _ =>
      (.rejectedOk, { st with withdrawals := st.withdrawals.filter (fun w => !(w.id == id)) })

inductive PaymentResult
  | userNotFound
  | pendingExists
  | invalidFridge
  | fridgeLocked
  | submitted
deriving DecidableEq, Repr

/-- `/api/payment/submit` of `src/index.js` (second variant): at most one
pending payment within 24 hours of the last attempt; the payment snapshot
records the catalog price. -/
def paymentSubmit (email fridgeId phone transactionCode pid : String) (now : Int)
    (st : St) : PaymentResult × St :=
  match findUser st.users email with
  | none => (.userNotFound, st)
  | some user =>
    if (match user.lastDepositAttempt with
        | some t => decide (now - t < 24 * 60 * 60 * 1000) &&
            st.payments.any (fun p => p.userEmail == user.email && !p.approved)
        | none => false) then (.pendingExists, st)
    else
      match st.fridges.find? (·.id == fridgeId) with
      | none => (.invalidFridge, st)
      | some fridge =>
        if fridge.locked then (.fridgeLocked, st)
        else
          let pay : Payment :=
            { id := pid, userEmail := user.email, fridgeId := fridge.id,
              fridgeName := fridge.name, fridgePrice := fridge.price, phone := phone,
              transactionCode := transactionCode, approved := false, createdAt := now }
          (.submitted,
           { st with payments := st.payments ++ [pay],
                     users := saveUser { user with lastDepositAttempt := some now } st.users })

inductive TgPayResult
  | paymentNotFound
  | userOrFridgeNotFound
  | approvedOk
  | rejectedOk
deriving DecidableEq, Repr

/-- The payment `approve` branch of the Telegram handler: push a catalog
snapshot into `user.fridges` and mark the payment approved. -/
def tgPaymentApprove (id : String) (now : Int) (st : St) : TgPayResult × St :=
  match st.payments.find? (·.id == id) with
  | none => (.paymentNotFound, st)
  | some payment =>
    match findUser st.users payment.userEmail, st.fridges.find? (·.id == payment.fridgeId) with
    | some user, some fridge =>
      let h : Holding :=
        { id := fridge.id, name := fridge.name, price := fridge.price,
          dailyEarn := fridge.dailyEarn, boughtAt := now }
      let user1 := { user with fridges := user.fridges ++ [h] }
      let pay1 := { payment with approved := true }
      (.approvedOk,
       { st with users := saveUser user1 st.users,
                 payments := updFirst (·.id == id) (fun _ => pay1) st.payments })
    | _, _ => (.userOrFridgeNotFound, st)

/-- The payment `reject` branch: `findByIdAndDelete`. -/
def tgPaymentReject (id : String) (st : St) : TgPayResult × St :=
  match st.payments.find? (·.id == id) with
  | none => (.paymentNotFound, st)
  | some payment =>
    match findUser st.users payment.userEmail, st.fridges.find? (·.id == payment.fridgeId) with
    | some _, some _ =>
      (.rejectedOk, { st with payments := st.payments.filter (fun p => !(p.id == id)) })
    | _, _ => (.userOrFridgeNotFound, st)

/-- The contribution of one held fridge in `runDailyEarnings` of
`src/index.js`: a missing catalog id contributes 0; a non-offer entry
contributes its `dailyEarn`; an offer entry with a `startTime` and a nonzero
`durationHrs` contributes its `price` once `now` has reached the end time. -/
def fridgeEarn (catalog : List Fridge) (now : Int) (f : Holding) : Int :=
  match catalog.find? (fun fr => fr.id == f.id) with
  | none => 0
  | some fridge =>
    (if !strStarts fridge.id "offer" then fridge.dailyEarn else 0) +
    (if strStarts fridge.id "offer" then
        match fridge.startTime with
        | some s =>
          if fridge.durationHrs ≠ 0 then
            (if s + fridge.durationHrs * 3600 * 1000 ≤ now then fridge.price else 0)
          else 0
        | none => 0
      else 0)

/-- The per-user `earn` accumulator of `runDailyEarnings`. -/
def userDailyEarn (catalog : List Fridge) (now : Int) (u : User) : Int :=
  u.fridges.foldl (fun acc f => acc + fridgeEarn catalog now f) 0

/-- The body of the `runDailyEarnings` loop for one user:
`u.earning += earn; await u.save()`. -/
def runDailyForUser (catalog : List Fridge) (now : Int) (u : User) : User :=
  { u with earning := u.earning + userDailyEarn catalog now u }

/-- `runDailyEarnings` of `src/index.js`: iterate the user snapshot and save
each credited user.  There is no last-run guard in this variant; the function
body runs whenever the 24h `setInterval` fires. -/
def runDailyEarnings (now : Int) (st : St) : St :=
  let users1 := st.users.foldl (fun acc u => saveUser (runDailyForUser st.fridges now u) acc) st.users
  { st with users := users1 }

/-- Return the error of the first guard in the list whose condition is true,
`ok` if none fires. -/
def firstErr : List (Bool × WErr) → Except WErr Unit
  | [] => .ok ()
  | (b, e) :: rest => if b then .error e else firstErr rest

/-- Modelled from the spec: the precondition order claim C9 asserts for the
withdrawal endpoint — minimum amount first, then the pending-withdrawal
cooldown, then the phone match, then the weekday window, then sufficient
earnings.  Written for comparison with `withdrawRequest`. -/
def claimWithdrawChecks (user : User) (ws : List Withdrawal) (phone : String)
    (amount now : Int) (day : Nat) : Except WErr Unit :=
  firstErr [
    (phone == "" || amount == 0 || decide (amount < 200), .invalidAmount),
    (withdrawCooldown user ws now, .pendingExists),
    (user.phone != phone, .phoneMismatch),
    (day == 0 || day == 6, .weekend),
    (decide (user.earning < amount), .insufficientEarnings)]

/-- The precondition order the code actually evaluates (first failure wins):
cooldown, then amount validity, then phone match, then weekday, then
earnings. -/
def amendedWithdrawChecks (user : User) (ws : List Withdrawal) (phone : String)
    (amount now : Int) (day : Nat) : Except WErr Unit :=
  firstErr [
    (withdrawCooldown user ws now, .pendingExists),
    (phone == "" || amount == 0 || decide (amount < 200), .invalidAmount),
    (user.phone != phone, .phoneMismatch),
    (day == 0 || day == 6, .weekend),
    (decide (user.earning < amount), .insufficientEarnings)]

/-- Elapsed-offer test used to state what the accrual run pays for offer
fridges: an offer-class catalog entry with a start time and nonzero duration
whose window end lies at or before `now`. -/
def offerElapsed (now : Int) (fr : Fridge) : Bool :=
  strStarts fr.id "offer" &&
    (match fr.startTime with
     | some s => fr.durationHrs != 0 && decide (s + fr.durationHrs * 3600 * 1000 ≤ now)
     | none => false)

/-- The catalog entries a list of holdings resolves to (holdings with ids not
in the catalog drop out). -/
def resolvedFridges (catalog : List Fridge) (hs : List Holding) : List Fridge :=
  hs.filterMap (fun f => catalog.find? (fun fr => fr.id == f.id))

/-- Modelled from the spec: the sum, over the non-offer fridge holdings, of
the catalog `dailyEarn` rate (the description claim C6 gives of one accrual run). -/
def nonOfferSum (catalog : List Fridge) (hs : List Holding) : Int :=
  (((resolvedFridges catalog hs).filter (fun fr => !strStarts fr.id "offer")).map
    (fun fr => fr.dailyEarn)).sum

/-- The sum of the one-time `price` payouts of elapsed offer fridges the
accrual run also credits. -/
def offerPayoutSum (catalog : List Fridge) (now : Int) (hs : List Holding) : Int :=
  (((resolvedFridges catalog hs).filter (offerElapsed now)).map (fun fr => fr.price)).sum

/-- A JSON value appearing in the `/api/me` response of `src/index.js`. -/
inductive JVal
  | s (v : String)
  | n (v : Int)
  | optN (v : Option Int)
  | holdings (v : List Holding)
deriving DecidableEq, Repr

/-- The full user document as a JSON object, in schema field order. -/
def userJson (u : User) : List (String × JVal) := [
  ("name", .s u.name), ("email", .s u.email), ("password", .s u.password),
  ("phone", .s u.phone), ("balance", .n u.balance), ("earning", .n u.earning),
  ("fridges", .holdings u.fridges), ("lastDepositAttempt", .optN u.lastDepositAttempt),
  ("lastWithdrawalAttempt", .optN u.lastWithdrawalAttempt)]

/-- `/api/me` of `src/index.js`: `res.json((whole) user, isAdmin (rest))`
returns the stored document as-is, password hash included. -/
def apiMe (email : String) (st : St) : Option (List (String × JVal)) :=
  match findUser st.users email with
  | none => none
  | some user => some (userJson user)

/-- One request against the `src/index.js` server, admin operations included
(their shared-secret guard is taken as passed). -/
inductive Op
  | register (name email password phone : String) (now : Int)
  | redeem (email code : String)
  | offercode (code : String) (amount : Int)
  | unlock (fridgeId : String) (price dailyEarn durationHrs : Int) (now : Int)
  | lock (fridgeId : String)
  | withdrawReq (email phone : String) (amount : Int) (now : Int) (day : Nat) (wid : String)
  | tgApprove (id : String)
  | tgReject (id : String)
  | paySubmit (email fridgeId phone transactionCode pid : String) (now : Int)
  | tgPayApprove (id : String) (now : Int)
  | tgPayReject (id : String)
  | daily (now : Int)
deriving DecidableEq, Repr

def step (st : St) : Op → St
  | .register n e p ph now => (register n e p ph now st).2
  | .redeem e c => (offerRedeem e c st).2
  | .offercode c a => (offercodeCreate c a st).2
  | .unlock f p d h now => unlock f p d h now st
  | .lock f => lock f st
  | .withdrawReq e ph a now day wid => (withdrawRequest e ph a now day wid st).2
  | .tgApprove id => (tgWithdrawApprove id st).2
  | .tgReject id => (tgWithdrawReject id st).2
  | .paySubmit e f ph t pid now => (paymentSubmit e f ph t pid now st).2
  | .tgPayApprove id now => (tgPaymentApprove id now st).2
  | .tgPayReject id => (tgPaymentReject id st).2
  | .daily now => runDailyEarnings now st

def run (st : St) (ops : List Op) : St := ops.foldl step st

/-- Fresh server state: empty collections, the initial catalog. -/
def init : St :=
  { users := [], offerCodes := [], payments := [], withdrawals := [],
    fridges := initFRIDGES }

end Mongo

namespace Part0

/-- A user document of `src/unnamed/part_000` (fridge holdings reduced to the
fields that endpoint writes). -/
structure User where
  name : String
  email : String
  phone : String
  password : String
  earning : Int
deriving DecidableEq, Repr

inductive ApplyResult
  | applied
  | invalidCode
  | serverError
deriving DecidableEq, Repr

/-- `/api/apply-offer` of `src/unnamed/part_000`: any request whose code
upper-cases to `BITFREEZE` adds 100 KES to `earning`; there is no record of
who already applied it. -/
def applyOffer (email code : String) (users : List User) : ApplyResult × List User :=
  if strUpper code = "BITFREEZE" then
    match users.find? (·.email == email) with
    | none => (.serverError, users)
    | some _ =>
      (.applied,
       updFirst (·.email == email) (fun u => { u with earning := u.earning + 100 }) users)
  else (.invalidCode, users)

end Part0

namespace Persist

/-- Every stored account has a nonnegative balance (the `src/Index.js` user
records have no separate earning field). -/
def NonNegAccounts (st : St) : Prop := ∀ u ∈ st.users, 0 ≤ u.balance

/-- Auxiliary machine invariant: balances are nonnegative and every recorded
deposit carries a positive amount (deposits are only ever created through the
`amount > 0` guard of `/api/deposit`). -/
def Inv (st : St) : Prop :=
  (∀ u ∈ st.users, 0 ≤ u.balance) ∧ (∀ d ∈ st.deposits, 0 < d.amount)

end Persist

namespace Mongo

/-- Every stored account has nonnegative `balance` and `earning`. -/
def NonNegAccounts (st : St) : Prop := ∀ u ∈ st.users, 0 ≤ u.balance ∧ 0 ≤ u.earning

/-- An operation is admin-wellformed when the unvalidated admin inputs are
nonnegative: offer-code reward amounts, and the price and daily-earn rate
passed to `unlock`. -/
def adminSafe : Op → Prop
  | .offercode _ a => 0 ≤ a
  | .unlock _ p d _ _ => 0 ≤ p ∧ 0 ≤ d
  | _ => True

instance (op : Op) : Decidable (adminSafe op) := by
  cases op <;> simp only [adminSafe] <;> infer_instance

/-- Auxiliary machine invariant: nonnegative accounts, nonnegative offer-code
amounts, and a catalog whose prices and daily-earn rates are nonnegative. -/
def Inv (st : St) : Prop :=
  (∀ u ∈ st.users, 0 ≤ u.balance ∧ 0 ≤ u.earning) ∧
  (∀ c ∈ st.offerCodes, 0 ≤ c.amount) ∧
  (∀ f ∈ st.fridges, 0 ≤ f.price ∧ 0 ≤ f.dailyEarn)

end Mongo

namespace Persist

/-- Fixture: a registered user with no deposits yet. -/
def exUser : User :=
  { email := "u", phone := some "0707", password := "hash123", balance := 0,
    fridges := [], refCode := "r1", referredBy := none, lastDailyCredit := 0,
    createdAt := 0 }

/-- Fixture: a pending deposit of 100 initiated through the gateway, with
checkout reference `ck`. -/
def exDeposit : Deposit :=
  { id := "d1", user := "u", amount := 100, phone := some "0707",
    status := .pending, createdAt := 0, darajaRef := some "ck", confirmedAt := none }

/-- Fixture: the state holding `exUser` and `exDeposit`. -/
def exSt : St := { users := [exUser], deposits := [exDeposit], withdrawals := [], lastDailyRun := 0 }

/-- Fixture: a pending withdrawal request of 300. -/
def exWithdrawal : Withdrawal :=
  { id := "w1", user := "u", amount := 300, phone := "0707", status := .pending,
    requestedAt := 0 }

/-- Fixture: `exUser` with a balance of 1000 and the pending withdrawal. -/
def exStW : St :=
  { users := [{ exUser with balance := 1000 }], deposits := [],
    withdrawals := [exWithdrawal], lastDailyRun := 0 }

/-- Fixture: a referrer owning referral code `CODE7`. -/
def exReferrer : User :=
  { email := "ref", phone := none, password := "h2", balance := 10, fridges := [],
    refCode := "CODE7", referredBy := none, lastDailyCredit := 0, createdAt := 0 }

/-- Fixture: a depositor referred by `CODE7`. -/
def exReferred : User := { exUser with referredBy := some "CODE7" }

/-- Fixture: the users store holding referrer and referred depositor. -/
def exUsersRef : List User := [exReferrer, exReferred]

end Persist

namespace Mongo

/-- Fixture: a registered user with 1000 KES of earnings. -/
def exUser : User :=
  { name := "n", email := "u", password := "hash123", phone := "0707",
    balance := 0, earning := 1000, fridges := [], lastDepositAttempt := none,
    lastWithdrawalAttempt := none }

/-- Fixture: a pending withdrawal of 200 by `exUser`. -/
def exWd : Withdrawal :=
  { id := "w1", userEmail := "u", phone := "0707", amount := 200,
    approved := false, createdAt := 0 }

/-- Fixture: the state holding `exUser` and the pending withdrawal `exWd`. -/
def exStApprove : St :=
  { users := [exUser], offerCodes := [], payments := [], withdrawals := [exWd],
    fridges := initFRIDGES }

/-- Fixture: `exUser` with a withdrawal attempt recorded at time 0. -/
def exUserCooldown : User := { exUser with lastWithdrawalAttempt := some 0 }

/-- Fixture: an older pending withdrawal keeping the cooldown active. -/
def exWdPending : Withdrawal :=
  { id := "w0", userEmail := "u", phone := "0707", amount := 300,
    approved := false, createdAt := 0 }

/-- Fixture: state in which `exUserCooldown` has a pending withdrawal within
the 24h window. -/
def exStCooldown : St :=
  { users := [exUserCooldown], offerCodes := [], payments := [],
    withdrawals := [exWdPending], fridges := initFRIDGES }

/-- Fixture: the catalog after the admin runs `unlock(offer1, price 300,
dailyEarn 0, durationHrs 1)` at time 0. -/
def exOfferCatalog : List Fridge := (unlock "offer1" 300 0 1 0 init).fridges

/-- Fixture: a user holding one `offer1` fridge and nothing else. -/
def exHolder : User :=
  { name := "n", email := "u", password := "hash123", phone := "0707",
    balance := 0, earning := 0,
    fridges := [{ id := "offer1", name := "Offer Fridge 1", price := 300,
                  dailyEarn := 0, boughtAt := 5 }],
    lastDepositAttempt := none, lastWithdrawalAttempt := none }

/-- Fixture: the account state reached by registering `u` and redeeming an
admin-created offer code of amount `-5`. -/
def exNegUser : User :=
  { name := "n", email := "u", password := "p", phone := "07", balance := 0,
    earning := -5, fridges := [], lastDepositAttempt := none,
    lastWithdrawalAttempt := none }

/-- Fixture: a user holding one `2ft` fridge (catalog `dailyEarn` 25) and no
offer fridges. -/
def exHolder25 : User :=
  { name := "n", email := "u", password := "hash123", phone := "0707",
    balance := 0, earning := 7,
    fridges := [{ id := "2ft", name := "2 ft Fridge", price := 500,
                  dailyEarn := 25, boughtAt := 5 }],
    lastDepositAttempt := none, lastWithdrawalAttempt := none }

/-- Fixture: a server state holding only `exHolder25`. -/
def exSt25 : St :=
  { users := [exHolder25], offerCodes := [], payments := [], withdrawals := [],
    fridges := initFRIDGES }

end Mongo

namespace Part0

/-- Fixture: a registered user of the prototype server. -/
def exUser : User :=
  { name := "n", email := "u", phone := "0707", password := "hash123", earning := 0 }

end Part0

theorem mem_updFirst {p : α → Bool} {f : α → α} :
    ∀ {l : List α} {x : α}, x ∈ updFirst p f l → x ∈ l ∨ ∃ y ∈ l, x = f y := by
  intro l
  induction l with
  | nil => intro x h; simp [updFirst] at h
  | cons a as ih =>
    intro x h
    simp only [updFirst] at h
    by_cases hp : p a
    · simp [hp] at h
      rcases h with h | h
      · exact Or.inr ⟨a, by simp, h⟩
      · exact Or.inl (by simp [h])
    · simp [hp] at h
      rcases h with h | h
      · exact Or.inl (by simp [h])
      · rcases ih h with h' | ⟨y, hy, hxy⟩
        · exact Or.inl (by simp [h'])
        · exact Or.inr ⟨y, by simp [hy], hxy⟩

theorem find?_updFirst_self (p : α → Bool) (f : α → α) :
    ∀ (l : List α) (x : α), l.find? p = some x → p (f x) = true →
      (updFirst p f l).find? p = some (f x) := by
  intro l
  induction l with
  | nil => intro x h; simp at h
  | cons a as ih =>
    intro x h hpf
    by_cases hp : p a
    · rw [List.find?_cons_of_pos _ hp] at h
      cases h
      simp [updFirst, hp, List.find?_cons_of_pos _ hpf]
    · rw [List.find?_cons_of_neg _ hp] at h
      simp only [updFirst, if_neg hp]
      rw [List.find?_cons_of_neg _ hp]
      exact ih x h hpf

theorem find?_updFirst_ne (p q : α → Bool) (f : α → α)
    (hpq : ∀ x, p x = true → q x = false) (hpf : ∀ x, p x = true → q (f x) = false) :
    ∀ l : List α, (updFirst p f l).find? q = l.find? q := by
  intro l
  induction l with
  | nil => simp [updFirst]
  | cons a as ih =>
    by_cases hp : p a
    · simp only [updFirst, if_pos hp]
      rw [List.find?_cons_of_neg _ (by simp [hpf a hp]),
          List.find?_cons_of_neg _ (by simp [hpq a hp])]
    · simp only [updFirst, if_neg hp]
      by_cases hq : q a
      · rw [List.find?_cons_of_pos _ hq, List.find?_cons_of_pos _ hq]
      · rw [List.find?_cons_of_neg _ hq, List.find?_cons_of_neg _ hq]
        exact ih

theorem find?_ifput_self (p : α → Bool) (u : α) (l : List α) (hp : p u = true) :
    (if l.any p then updFirst p (fun _ => u) l else l ++ [u]).find? p = some u := by
  by_cases hany : l.any p
  · rw [if_pos hany]
    obtain ⟨x, hxl, hx⟩ := List.any_eq_true.1 hany
    obtain ⟨y, hy⟩ := Option.isSome_iff_exists.1 (List.find?_isSome.2 ⟨x, hxl, hx⟩)
    exact find?_updFirst_self p (fun _ => u) l y hy hp
  · rw [if_neg hany, List.find?_append]
    have hnone : l.find? p = none :=
      List.find?_eq_none.2 (fun x hx hpx => hany (List.any_eq_true.2 ⟨x, hx, hpx⟩))
    simp [hnone, List.find?, hp]

theorem find?_ifput_ne (p q : α → Bool) (u : α) (l : List α)
    (hpq : ∀ x, p x = true → q x = false) (hq : q u = false) :
    (if l.any p then updFirst p (fun _ => u) l else l ++ [u]).find? q = l.find? q := by
  by_cases hany : l.any p
  · rw [if_pos hany]
    exact find?_updFirst_ne p q (fun _ => u) hpq (fun x _ => hq) l
  · rw [if_neg hany, List.find?_append]
    simp [List.find?, hq]

theorem foldl_add_map (g : α → Int) :
    ∀ (l : List α) (a : Int), l.foldl (fun acc x => acc + g x) a = a + (l.map g).sum := by
  intro l
  induction l with
  | nil => simp
  | cons x xs ih =>
    intro a
    simp only [List.foldl_cons, List.map_cons, List.sum_cons, ih]
    ring

namespace Persist

theorem findUserByEmail_putUser_self (u : User) (l : List User) :
    findUserByEmail (putUser u l) u.email = some u :=
  find?_ifput_self _ u l (by simp)

theorem findUserByEmail_putUser_ne (u : User) (l : List User) (e : String)
    (h : u.email ≠ e) : findUserByEmail (putUser u l) e = findUserByEmail l e := by
  refine find?_ifput_ne _ _ u l ?_ (by simp [h])
  intro x hx
  have hx' : x.email = u.email := by simpa using hx
  simp [hx', h]

theorem mem_putUser {u x : User} {l : List User} (h : x ∈ putUser u l) :
    x = u ∨ x ∈ l := by
  unfold putUser at h
  by_cases hany : l.any (·.email == u.email)
  · rw [if_pos hany] at h
    rcases mem_updFirst h with h' | ⟨_, _, h'⟩
    · exact Or.inr h'
    · exact Or.inl h'
  · rw [if_neg hany] at h
    rcases List.mem_append.1 h with h' | h'
    · exact Or.inr h'
    · exact Or.inl (List.mem_singleton.1 h')

theorem findDeposit_putDeposit_self (d : Deposit) (l : List Deposit) :
    findDeposit (putDeposit d l) d.id = some d :=
  find?_ifput_self _ d l (by simp)

theorem mem_putDeposit {d x : Deposit} {l : List Deposit} (h : x ∈ putDeposit d l) :
    x = d ∨ x ∈ l := by
  unfold putDeposit at h
  by_cases hany : l.any (·.id == d.id)
  · rw [if_pos hany] at h
    rcases mem_updFirst h with h' | ⟨_, _, h'⟩
    · exact Or.inr h'
    · exact Or.inl h'
  · rw [if_neg hany] at h
    rcases List.mem_append.1 h with h' | h'
    · exact Or.inr h'
    · exact Or.inl (List.mem_singleton.1 h')

theorem findWithdrawal_putWithdrawal_self (w : Withdrawal) (l : List Withdrawal) :
    findWithdrawal (putWithdrawal w l) w.id = some w :=
  find?_ifput_self _ w l (by simp)

/-- Every referral rule in the fixed table pays a nonnegative reward. -/
theorem referral_reward_nonneg {amount : Int} {rule : Rule}
    (h : REFERRAL_RULES.find? (fun r => decide (r.min ≤ amount)) = some rule) :
    0 ≤ rule.reward := by
  have hmem := List.mem_of_find?_eq_some h
  have : ∀ r ∈ REFERRAL_RULES, 0 ≤ r.reward := by decide
  exact this rule hmem

/-- The rule the `REFERRAL_RULES.find?` scan selects is a matching rule of
maximal threshold: the table is descending, so the first match is the largest
`min` below the amount. -/
theorem referral_rule_max (amount : Int) (rule : Rule)
    (h : REFERRAL_RULES.find? (fun r => decide (r.min ≤ amount)) = some rule) :
    rule.min ≤ amount ∧ ∀ r ∈ REFERRAL_RULES, r.min ≤ amount → r.min ≤ rule.min := by
  by_cases h8 : (8000 : Int) ≤ amount
  · simp only [REFERRAL_RULES, List.find?_cons, h8] at h
    simp at h
    cases h
    refine ⟨h8, ?_⟩
    intro r hr hramt
    simp only [REFERRAL_RULES, List.mem_cons, List.not_mem_nil, or_false] at hr
    rcases hr with rfl | rfl | rfl | rfl | rfl | rfl <;> simp_all
  · by_cases h6 : (6000 : Int) ≤ amount
    · simp only [REFERRAL_RULES, List.find?_cons, h8, h6] at h
      simp [h8, h6] at h
      cases h
      refine ⟨h6, ?_⟩
      intro r hr hramt
      simp only [REFERRAL_RULES, List.mem_cons, List.not_mem_nil, or_false] at hr
      rcases hr with rfl | rfl | rfl | rfl | rfl | rfl <;> simp_all
    · by_cases h4 : (4000 : Int) ≤ amount
      · simp [REFERRAL_RULES, List.find?_cons, h8, h6, h4] at h
        cases h
        refine ⟨h4, ?_⟩
        intro r hr hramt
        simp only [REFERRAL_RULES, List.mem_cons, List.not_mem_nil, or_false] at hr
        rcases hr with rfl | rfl | rfl | rfl | rfl | rfl <;> simp_all
      · by_cases h2 : (2000 : Int) ≤ amount
        · simp [REFERRAL_RULES, List.find?_cons, h8, h6, h4, h2] at h
          cases h
          refine ⟨h2, ?_⟩
          intro r hr hramt
          simp only [REFERRAL_RULES, List.mem_cons, List.not_mem_nil, or_false] at hr
          rcases hr with rfl | rfl | rfl | rfl | rfl | rfl <;> simp_all
        · by_cases h1 : (1000 : Int) ≤ amount
          · simp [REFERRAL_RULES, List.find?_cons, h8, h6, h4, h2, h1] at h
            cases h
            refine ⟨h1, ?_⟩
            intro r hr hramt
            simp only [REFERRAL_RULES, List.mem_cons, List.not_mem_nil, or_false] at hr
            rcases hr with rfl | rfl | rfl | rfl | rfl | rfl <;> simp_all
          · by_cases h5 : (500 : Int) ≤ amount
            · simp [REFERRAL_RULES, List.find?_cons, h8, h6, h4, h2, h1, h5] at h
              cases h
              refine ⟨h5, ?_⟩
              intro r hr hramt
              simp only [REFERRAL_RULES, List.mem_cons, List.not_mem_nil, or_false] at hr
              rcases hr with rfl | rfl | rfl | rfl | rfl | rfl <;> simp_all
            · simp [REFERRAL_RULES, List.find?_cons, h8, h6, h4, h2, h1, h5] at h

/-- `applyReferral` only ever adds a (nonnegative) reward to one balance, so
it preserves nonnegativity of all balances. -/
theorem applyReferral_nonneg (amount : Int) (email : String) (users : List User)
    (h : ∀ u ∈ users, 0 ≤ u.balance) :
    ∀ u ∈ applyReferral amount email users, 0 ≤ u.balance := by
  cases hu : findUserByEmail users email with
  | none => simpa only [applyReferral, hu] using h
  | some user =>
    cases hrb : user.referredBy with
    | none => simpa only [applyReferral, hu, hrb] using h
    | some rb =>
      cases href : findReferrer users rb with
      | none => simpa only [applyReferral, hu, hrb, href] using h
      | some refUser =>
        cases hrule : REFERRAL_RULES.find? (fun r => decide (r.min ≤ amount)) with
        | none => simpa only [applyReferral, hu, hrb, href, hrule] using h
        | some rule =>
          simp only [applyReferral, hu, hrb, href, hrule]
          intro x hx
          rcases mem_putUser hx with rfl | hx'
          · have h1 : 0 ≤ refUser.balance := h _ (List.mem_of_find?_eq_some href)
            have h2 : 0 ≤ rule.reward := referral_reward_nonneg hrule
            simpa using add_nonneg h1 h2
          · exact h x hx'

/-- Every catalog daily-earn rate of `src/Index.js` is nonnegative. -/
theorem cronCredit_nonneg (fridges : List Holding) : 0 ≤ cronCredit fridges := by
  have hcat : ∀ c ∈ FRIDGES, 0 ≤ c.dailyEarn := by decide
  suffices hmono : ∀ (hs : List Holding) (acc : Int), acc ≤ hs.foldl
      (fun acc f =>
        match FRIDGES.find? (fun x => x.id == f.id) with
        | some cfg => if cfg.dailyEarn ≠ 0 then acc + cfg.dailyEarn else acc
        | none => acc) acc by
    simpa [cronCredit] using hmono fridges 0
  intro hs
  induction hs with
  | nil => simp
  | cons f hs ih =>
    intro acc
    simp only [List.foldl_cons]
    cases hf : FRIDGES.find? (fun x => x.id == f.id) with
    | none => exact ih acc
    | some cfg =>
      have hge : 0 ≤ cfg.dailyEarn := hcat cfg (List.mem_of_find?_eq_some hf)
      by_cases hz : cfg.dailyEarn ≠ 0
      · simp only [if_pos hz]
        calc acc ≤ acc + cfg.dailyEarn := by omega
        _ ≤ _ := ih _
      · simp only [if_neg hz]
        exact ih acc

theorem dailyCron_users_nonneg (snap acc : List User)
    (hsnap : ∀ u ∈ snap, 0 ≤ u.balance) (hacc : ∀ x ∈ acc, 0 ≤ x.balance) :
    ∀ x ∈ snap.foldl
      (fun acc u =>
        if u.fridges.isEmpty then acc
        else
          let credit := cronCredit u.fridges
          if 0 < credit then putUser { u with balance := u.balance + credit } acc
          else acc) acc, 0 ≤ x.balance := by
  induction snap generalizing acc with
  | nil => simpa using hacc
  | cons u snap ih =>
    simp only [List.foldl_cons]
    refine ih _ (fun v hv => hsnap v (by simp [hv])) ?_
    by_cases he : u.fridges.isEmpty
    · simpa [he] using hacc
    · simp only [if_neg he]
      by_cases hc : 0 < cronCredit u.fridges
      · simp only [if_pos hc]
        intro x hx
        rcases mem_putUser hx with rfl | hx'
        · have := hsnap u (by simp)
          simp only
          omega
        · exact hacc x hx'
      · simpa [hc] using hacc

/-- Single-operation preservation of the `src/Index.js` invariant. -/
theorem inv_step (st : St) (op : Op) (h : Inv st) : Inv (step st op) := by
  obtain ⟨hbal, hdep⟩ := h
  cases op with
  | register e p ph r rc now =>
    simp only [step, register]
    split
    · exact ⟨hbal, hdep⟩
    split
    · exact ⟨hbal, hdep⟩
    refine ⟨?_, hdep⟩
    intro u hu
    rcases List.mem_append.1 hu with h' | h'
    · exact hbal u h'
    · have : u.balance = 0 := by
        cases List.mem_singleton.1 h'
        rfl
      omega
  | deposit e a ph sim dr id now =>
    simp only [step, deposit]
    split
    · exact ⟨hbal, hdep⟩
    next hpos =>
    split
    · exact ⟨hbal, hdep⟩
    split
    · exact ⟨hbal, hdep⟩
    next user hu =>
    have hnewp : ∀ (stt : DepStatus) (drr : Option String),
        ∀ d ∈ recordDeposit id user.email a (some ph) stt drr now st.deposits,
        0 < d.amount := by
      intro stt drr d hd
      rcases mem_putDeposit hd with rfl | hd'
      · simp only
        omega
      · exact hdep d hd'
    split
    · exact ⟨hbal, hnewp _ _⟩
    split
    · refine ⟨?_, hnewp _ _⟩
      refine applyReferral_nonneg _ _ _ ?_
      intro u hu'
      rcases mem_putUser hu' with rfl | h'
      · have := hbal user (List.mem_of_find?_eq_some hu)
        simp only
        omega
      · exact hbal u h'
    · exact ⟨hbal, hnewp _ _⟩
  | callback cid ok now =>
    simp only [step, mpesaCallback]
    split
    · exact ⟨hbal, hdep⟩
    next c =>
    split
    · exact ⟨hbal, hdep⟩
    next found hf =>
    have hfound : 0 < found.amount := hdep found (List.mem_of_find?_eq_some hf)
    have hdep1 : ∀ d ∈ putDeposit { found with status := DepStatus.confirmed, confirmedAt := some now } st.deposits, 0 < d.amount := by
      intro d hd
      rcases mem_putDeposit hd with rfl | hd'
      · simpa using hfound
      · exact hdep d hd'
    split
    · split
      · exact ⟨hbal, hdep1⟩
      next user hu =>
      refine ⟨?_, hdep1⟩
      refine applyReferral_nonneg _ _ _ ?_
      intro u hu'
      rcases mem_putUser hu' with rfl | h'
      · have := hbal user (List.mem_of_find?_eq_some hu)
        simp only
        omega
      · exact hbal u h'
    · refine ⟨hbal, ?_⟩
      intro d hd
      rcases mem_putDeposit hd with rfl | hd'
      · simpa using hfound
      · exact hdep d hd'
  | adminConfirm did now =>
    simp only [step, confirmDeposit]
    split
    · exact ⟨hbal, hdep⟩
    next d0 hf =>
    have hd0 : 0 < d0.amount := hdep d0 (List.mem_of_find?_eq_some hf)
    split
    · exact ⟨hbal, hdep⟩
    have hdep1 : ∀ d ∈ putDeposit { d0 with status := DepStatus.confirmed, confirmedAt := some now } st.deposits, 0 < d.amount := by
      intro d hd
      rcases mem_putDeposit hd with rfl | hd'
      · simpa using hd0
      · exact hdep d hd'
    split
    · exact ⟨hbal, hdep1⟩
    next user hu =>
    refine ⟨?_, hdep1⟩
    refine applyReferral_nonneg _ _ _ ?_
    intro u hu'
    rcases mem_putUser hu' with rfl | h'
    · have := hbal user (List.mem_of_find?_eq_some hu)
      simp only
      omega
    · exact hbal u h'
  | buy e f now =>
    simp only [step, buy]
    split
    · exact ⟨hbal, hdep⟩
    next item hf =>
    split
    · exact ⟨hbal, hdep⟩
    next user hu =>
    split
    · exact ⟨hbal, hdep⟩
    next hge =>
    refine ⟨?_, hdep⟩
    intro u hu'
    rcases mem_putUser hu' with rfl | h'
    · simp only
      omega
    · exact hbal u h'
  | withdrawReq e a ph id now =>
    simp only [step, withdrawRequest]
    split
    · exact ⟨hbal, hdep⟩
    split
    · exact ⟨hbal, hdep⟩
    split
    · exact ⟨hbal, hdep⟩
    split
    · exact ⟨hbal, hdep⟩
    next user hu =>
    split
    · exact ⟨hbal, hdep⟩
    split
    · exact ⟨hbal, hdep⟩
    next dep hdp =>
    split
    · exact ⟨hbal, hdep⟩
    · exact ⟨hbal, hdep⟩
  | approve id now =>
    simp only [step, approveWithdrawal]
    split
    · exact ⟨hbal, hdep⟩
    next w hw =>
    split
    · exact ⟨hbal, hdep⟩
    split
    · exact ⟨hbal, hdep⟩
    next user hu =>
    split
    · exact ⟨hbal, hdep⟩
    next hge =>
    refine ⟨?_, hdep⟩
    intro u hu'
    rcases mem_putUser hu' with rfl | h'
    · simp only
      omega
    · exact hbal u h'
  | reject id reason now =>
    simp only [step, rejectWithdrawal]
    split
    · exact ⟨hbal, hdep⟩
    next w hw =>
    split
    · exact ⟨hbal, hdep⟩
    · exact ⟨hbal, hdep⟩
  | cron now =>
    simp only [step, dailyCron]
    split
    · exact ⟨hbal, hdep⟩
    exact ⟨dailyCron_users_nonneg st.users st.users hbal hbal, hdep⟩

theorem inv_run : ∀ (ops : List Op) (st : St), Inv st → Inv (run st ops) := by
  intro ops
  induction ops with
  | nil => intro st h; exact h
  | cons op ops ih =>
    intro st h
    exact ih (step st op) (inv_step st op h)

end Persist

namespace Mongo

theorem mem_saveUser {u x : User} {l : List User} (h : x ∈ saveUser u l) :
    x = u ∨ x ∈ l := by
  rcases mem_updFirst h with h' | ⟨_, _, h'⟩
  · exact Or.inr h'
  · exact Or.inl h'

theorem findUser_saveUser_self (u : User) (l : List User) (x : User)
    (hx : l.find? (·.email == u.email) = some x) :
    findUser (saveUser u l) u.email = some u :=
  find?_updFirst_self _ _ l x hx (by simp)

theorem find?_saveOffer_self (o : OfferCode) (l : List OfferCode) (x : OfferCode)
    (hx : l.find? (·.code == o.code) = some x) :
    (saveOffer o l).find? (·.code == o.code) = some o :=
  find?_updFirst_self _ _ l x hx (by simp)

/-- Each per-fridge contribution of the daily accrual is nonnegative when the
catalog carries nonnegative prices and daily-earn rates. -/
theorem fridgeEarn_nonneg (catalog : List Fridge) (now : Int) (f : Holding)
    (hcat : ∀ c ∈ catalog, 0 ≤ c.price ∧ 0 ≤ c.dailyEarn) :
    0 ≤ fridgeEarn catalog now f := by
  unfold fridgeEarn
  split
  · omega
  next fridge hf =>
  obtain ⟨hp, hd⟩ := hcat fridge (List.mem_of_find?_eq_some hf)
  have h1 : 0 ≤ (if !strStarts fridge.id "offer" then fridge.dailyEarn else 0) := by
    split <;> omega
  have h2 : 0 ≤ (if strStarts fridge.id "offer" then
      match fridge.startTime with
      | some s =>
        if fridge.durationHrs ≠ 0 then
          (if s + fridge.durationHrs * 3600 * 1000 ≤ now then fridge.price else 0)
        else 0
      | none => 0
    else 0) := by
    split
    · split
      · split <;> [skip; omega]
        split <;> omega
      · omega
    · omega
  omega

theorem userDailyEarn_nonneg (catalog : List Fridge) (now : Int) (u : User)
    (hcat : ∀ c ∈ catalog, 0 ≤ c.price ∧ 0 ≤ c.dailyEarn) :
    0 ≤ userDailyEarn catalog now u := by
  unfold userDailyEarn
  rw [foldl_add_map]
  have : ∀ x ∈ u.fridges.map (fridgeEarn catalog now), 0 ≤ x := by
    intro x hx
    obtain ⟨f, _, rfl⟩ := List.mem_map.1 hx
    exact fridgeEarn_nonneg catalog now f hcat
  have := List.sum_nonneg this
  omega

theorem daily_users_nonneg (catalog : List Fridge) (now : Int)
    (hcat : ∀ c ∈ catalog, 0 ≤ c.price ∧ 0 ≤ c.dailyEarn) :
    ∀ (snap acc : List User),
      (∀ u ∈ snap, 0 ≤ u.balance ∧ 0 ≤ u.earning) →
      (∀ x ∈ acc, 0 ≤ x.balance ∧ 0 ≤ x.earning) →
      ∀ x ∈ snap.foldl (fun acc u => saveUser (runDailyForUser catalog now u) acc) acc,
        0 ≤ x.balance ∧ 0 ≤ x.earning := by
  intro snap
  induction snap with
  | nil => intro acc _ hacc; simpa using hacc
  | cons u snap ih =>
    intro acc hsnap hacc
    simp only [List.foldl_cons]
    refine ih _ (fun v hv => hsnap v (by simp [hv])) ?_
    intro x hx
    rcases mem_saveUser hx with rfl | hx'
    · obtain ⟨hb, he⟩ := hsnap u (by simp)
      have hde := userDailyEarn_nonneg catalog now u hcat
      unfold runDailyForUser
      constructor
      · simpa using hb
      · simp only
        omega
    · exact hacc x hx'

/-- Single-operation preservation of the `src/index.js` invariant, for
admin-wellformed operations. -/
theorem invariant_step (st : St) (op : Op) (hsafe : adminSafe op) (h : Inv st) :
    Inv (step st op) := by
  obtain ⟨hacc, hcode, hcat⟩ := h
  cases op with
  | register n e p ph now =>
    simp only [step, register]
    split
    · exact ⟨hacc, hcode, hcat⟩
    split
    · exact ⟨hacc, hcode, hcat⟩
    refine ⟨?_, hcode, hcat⟩
    intro u hu
    rcases List.mem_append.1 hu with h' | h'
    · exact hacc u h'
    · cases List.mem_singleton.1 h'
      exact ⟨le_refl 0, le_refl 0⟩
  | redeem e c =>
    simp only [step, offerRedeem]
    split
    · exact ⟨hacc, hcode, hcat⟩
    split
    · exact ⟨hacc, hcode, hcat⟩
    next user hu =>
    split
    · exact ⟨hacc, hcode, hcat⟩
    next offer ho =>
    split
    · exact ⟨hacc, hcode, hcat⟩
    refine ⟨?_, ?_, hcat⟩
    · intro u hu'
      rcases mem_saveUser hu' with rfl | h'
      · obtain ⟨hb, he⟩ := hacc user (List.mem_of_find?_eq_some hu)
        have ha := hcode offer (List.mem_of_find?_eq_some ho)
        exact ⟨by simpa using hb, by simp only; omega⟩
      · exact hacc u h'
    · intro cc hcc
      rcases mem_updFirst hcc with h' | ⟨y, hy, rfl⟩
      · exact hcode cc h'
      · simpa using hcode offer (List.mem_of_find?_eq_some ho)
  | offercode c a =>
    simp only [step, offercodeCreate]
    split
    · exact ⟨hacc, hcode, hcat⟩
    split
    · exact ⟨hacc, hcode, hcat⟩
    refine ⟨hacc, ?_, hcat⟩
    intro cc hcc
    rcases List.mem_append.1 hcc with h' | h'
    · exact hcode cc h'
    · cases List.mem_singleton.1 h'
      exact hsafe
  | unlock f p d hrs now =>
    obtain ⟨hp, hd⟩ := hsafe
    simp only [step, unlock]
    split
    · refine ⟨hacc, hcode, ?_⟩
      intro ff hf
      rcases mem_updFirst hf with h' | ⟨y, hy, rfl⟩
      · exact hcat ff h'
      · exact ⟨hp, hd⟩
    · exact ⟨hacc, hcode, hcat⟩
  | lock f =>
    simp only [step, lock]
    split
    · refine ⟨hacc, hcode, ?_⟩
      intro ff hf
      rcases mem_updFirst hf with h' | ⟨y, hy, rfl⟩
      · exact hcat ff h'
      · exact ⟨le_refl 0, le_refl 0⟩
    · exact ⟨hacc, hcode, hcat⟩
  | withdrawReq e ph a now day wid =>
    simp only [step, withdrawRequest]
    split
    · exact ⟨hacc, hcode, hcat⟩
    next user hu =>
    split
    · exact ⟨hacc, hcode, hcat⟩
    split
    · exact ⟨hacc, hcode, hcat⟩
    split
    · exact ⟨hacc, hcode, hcat⟩
    split
    · exact ⟨hacc, hcode, hcat⟩
    split
    · exact ⟨hacc, hcode, hcat⟩
    refine ⟨?_, hcode, hcat⟩
    intro u hu'
    rcases mem_saveUser hu' with rfl | h'
    · obtain ⟨hb, he⟩ := hacc user (List.mem_of_find?_eq_some hu)
      exact ⟨by simpa using hb, by simpa using he⟩
    · exact hacc u h'
  | tgApprove id =>
    simp only [step, tgWithdrawApprove]
    split
    · exact ⟨hacc, hcode, hcat⟩
    next wd hwd =>
    split
    · exact ⟨hacc, hcode, hcat⟩
    next user hu =>
    split
    · exact ⟨hacc, hcode, hcat⟩
    next hge =>
    refine ⟨?_, hcode, hcat⟩
    intro u hu'
    rcases mem_saveUser hu' with rfl | h'
    · obtain ⟨hb, he⟩ := hacc user (List.mem_of_find?_eq_some hu)
      exact ⟨by simpa using hb, by simp only; omega⟩
    · exact hacc u h'
  | tgReject id =>
    simp only [step, tgWithdrawReject]
    split
    · exact ⟨hacc, hcode, hcat⟩
    split
    · exact ⟨hacc, hcode, hcat⟩
    · exact ⟨hacc, hcode, hcat⟩
  | paySubmit e f ph t pid now =>
    simp only [step, paymentSubmit]
    split
    · exact ⟨hacc, hcode, hcat⟩
    next user hu =>
    split
    · exact ⟨hacc, hcode, hcat⟩
    split
    · exact ⟨hacc, hcode, hcat⟩
    next fridge hf =>
    split
    · exact ⟨hacc, hcode, hcat⟩
    refine ⟨?_, hcode, hcat⟩
    intro u hu'
    rcases mem_saveUser hu' with rfl | h'
    · obtain ⟨hb, he⟩ := hacc user (List.mem_of_find?_eq_some hu)
      exact ⟨by simpa using hb, by simpa using he⟩
    · exact hacc u h'
  | tgPayApprove id now =>
    simp only [step, tgPaymentApprove]
    split
    · exact ⟨hacc, hcode, hcat⟩
    next payment hp =>
    split
    next user fridge hu hf =>
      refine ⟨?_, hcode, hcat⟩
      intro u hu'
      rcases mem_saveUser hu' with rfl | h'
      · obtain ⟨hb, he⟩ := hacc user (List.mem_of_find?_eq_some hu)
        exact ⟨by simpa using hb, by simpa using he⟩
      · exact hacc u h'
    next => exact ⟨hacc, hcode, hcat⟩
  | tgPayReject id =>
    simp only [step, tgPaymentReject]
    split
    · exact ⟨hacc, hcode, hcat⟩
    split
    · exact ⟨hacc, hcode, hcat⟩
    · exact ⟨hacc, hcode, hcat⟩
  | daily now =>
    simp only [step, runDailyEarnings]
    exact ⟨daily_users_nonneg st.fridges now hcat st.users st.users hacc hacc, hcode, hcat⟩

theorem invariant_run : ∀ (ops : List Op) (st : St), (∀ op ∈ ops, adminSafe op) → Inv st →
    Inv (run st ops) := by
  intro ops
  induction ops with
  | nil => intro st _ h; exact h
  | cons op ops ih =>
    intro st hsafe h
    exact ih (step st op) (fun o ho => hsafe o (by simp [ho]))
      (invariant_step st op (hsafe op (by simp)) h)

/-- The per-fridge contribution of the accrual loop decomposes into the
non-offer daily-earn part and the elapsed-offer payout part. -/
theorem fridgeEarn_split (catalog : List Fridge) (now : Int) (f : Holding) (fr : Fridge)
    (hf : catalog.find? (fun fr => fr.id == f.id) = some fr) :
    fridgeEarn catalog now f =
      (if !strStarts fr.id "offer" then fr.dailyEarn else 0) +
      (if offerElapsed now fr then fr.price else 0) := by
  simp only [fridgeEarn, hf]
  by_cases ho : strStarts fr.id "offer"
  · cases hst : fr.startTime with
    | none => simp [ho, offerElapsed, hst]
    | some s =>
      by_cases hdur : fr.durationHrs = 0
      · simp [ho, offerElapsed, hst, hdur]
      · by_cases htime : s + fr.durationHrs * 3600 * 1000 ≤ now
        · simp [ho, offerElapsed, hst, hdur, htime]
        · simp [ho, offerElapsed, hst, hdur, htime]
  · simp [ho, offerElapsed]

theorem sum_split (catalog : List Fridge) (now : Int) :
    ∀ hs : List Holding,
      (hs.map (fridgeEarn catalog now)).sum
        = nonOfferSum catalog hs + offerPayoutSum catalog now hs := by
  intro hs
  induction hs with
  | nil => simp [nonOfferSum, offerPayoutSum, resolvedFridges]
  | cons f hs ih =>
    simp only [List.map_cons, List.sum_cons]
    cases hf : catalog.find? (fun fr => fr.id == f.id) with
    | none =>
      have h0 : fridgeEarn catalog now f = 0 := by simp [fridgeEarn, hf]
      simp only [nonOfferSum, offerPayoutSum, resolvedFridges, List.filterMap_cons, hf] at ih ⊢
      omega
    | some fr =>
      rw [fridgeEarn_split catalog now f fr hf]
      simp only [nonOfferSum, offerPayoutSum, resolvedFridges, List.filterMap_cons, hf,
        List.filter_cons] at ih ⊢
      by_cases ho : strStarts fr.id "offer"
      · by_cases he : offerElapsed now fr
        · simp [ho, he] at ih ⊢
          omega
        · simp [ho, he] at ih ⊢
          omega
      · have he : offerElapsed now fr = false := by
          simp [offerElapsed, ho]
        simp [ho, he] at ih ⊢
        omega

theorem userDailyEarn_split (catalog : List Fridge) (now : Int) (u : User) :
    userDailyEarn catalog now u =
      nonOfferSum catalog u.fridges + offerPayoutSum catalog now u.fridges := by
  unfold userDailyEarn
  rw [foldl_add_map]
  simpa using sum_split catalog now u.fridges

end Mongo

/-- C1 (as stated, refuted): the non-negativity invariant does not survive
every operation sequence — an admin-created offer code with a negative amount
(allowed by the `missing fields` check, which only rejects a zero amount) is
credited verbatim on redemption, driving `earning` to `-5`. -/
theorem C1_cex :
    ¬ Mongo.NonNegAccounts
      (Mongo.run Mongo.init [.register "n" "u" "p" "07" 0, .offercode "FREEZE" (-5),
        .redeem "u" "FREEZE"]) := by
  intro h
  have h5 := h Mongo.exNegUser (by
    rw [show (Mongo.run Mongo.init [.register "n" "u" "p" "07" 0, .offercode "FREEZE" (-5),
      .redeem "u" "FREEZE"]).users = [Mongo.exNegUser] from rfl]
    exact List.mem_singleton.mpr rfl)
  have : (0 : Int) ≤ -5 := by simpa [Mongo.exNegUser] using h5.2
  omega

/-- C1 (amended): provided every admin input is nonnegative (offer-code
amounts, and the price and daily-earn rate passed to the catalog unlock), the
accounts of both servers keep `balance ≥ 0` and `earning ≥ 0` after every
operation sequence from the initial state; every user-facing mutation that
would go negative is guarded (purchase, withdrawal approval, and the deposit
amount check). -/
theorem C1_claim :
    (∀ ops : List Mongo.Op, (∀ op ∈ ops, Mongo.adminSafe op) →
        Mongo.NonNegAccounts (Mongo.run Mongo.init ops)) ∧
    (∀ ops : List Persist.Op, Persist.NonNegAccounts (Persist.run Persist.init ops)) := by
  constructor
  · intro ops hsafe
    exact (Mongo.invariant_run ops Mongo.init hsafe
      ⟨by simp [Mongo.init], by simp [Mongo.init], by decide⟩).1
  · intro ops
    exact (Persist.inv_run ops Persist.init
      ⟨by simp [Persist.init], by simp [Persist.init]⟩).1

/-- C1 witness: the amended invariant evaluated on concrete runs — an
admin-safe Mongo sequence (register, create a 50-KES code, redeem it) and a
Persist sequence (register, simulated deposit, buy, withdraw request,
approve). -/
theorem C1_witness :
    Mongo.NonNegAccounts (Mongo.run Mongo.init
      [.register "n" "u" "p" "07" 0, .offercode "BONUS" 50, .redeem "u" "BONUS"]) ∧
    Persist.NonNegAccounts (Persist.run Persist.init
      [.register "u" "pw" (some "0707") none "r1" 0,
       .deposit "u" 1000 "0707" true none "d1" 1,
       .buy "u" "2ft" 2,
       .withdrawReq "u" 200 "0707" "w1" 3,
       .approve "w1" 4]) :=
  ⟨C1_claim.1 _ (by decide), C1_claim.2 _⟩

/-- C2 (as stated, refuted): duplicate gateway callbacks carrying the same
`gatewayRef` are not idempotent — the callback handler never checks the
deposit status, so a second successful callback for checkout `ck` credits the
100-KES deposit a second time (balance 200, not 100). -/
theorem C2_cex :
    ((Persist.mpesaCallback (some "ck") true 2
        (Persist.mpesaCallback (some "ck") true 1 Persist.exSt).2).2).users.map
      (fun u => u.balance) = [200] ∧
    ((Persist.mpesaCallback (some "ck") true 1 Persist.exSt).2).users.map
      (fun u => u.balance) = [100] :=
  ⟨rfl, rfl⟩

/-- C2 (amended): the admin confirm operation is idempotent — confirming a
not-yet-confirmed deposit credits the owner once, and a second confirm of the
same id reports already-confirmed and leaves the state untouched.  Duplicate
gateway callbacks with the same reference, by contrast, credit again (see the
counterexample). -/
theorem C2_claim (st : Persist.St) (depositId : String) (now now2 : Int)
    (d : Persist.Deposit) (user : Persist.User)
    (hd : Persist.findDeposit st.deposits depositId = some d)
    (hstatus : d.status ≠ .confirmed)
    (hu : Persist.findUserByEmail st.users d.user = some user)
    (href : user.referredBy = none) :
    ((Persist.confirmDeposit depositId now st).1
        = .confirmedOk (user.balance + d.amount)) ∧
    (Persist.findUserByEmail (Persist.confirmDeposit depositId now st).2.users d.user
        = some { user with balance := user.balance + d.amount }) ∧
    (Persist.confirmDeposit depositId now2 (Persist.confirmDeposit depositId now st).2
        = (.alreadyConfirmed, (Persist.confirmDeposit depositId now st).2)) := by
  have hid : d.id = depositId := by
    have := List.find?_some hd
    simpa using this
  have he : user.email = d.user := by
    have := List.find?_some hu
    simpa using this
  have hst1 : Persist.confirmDeposit depositId now st =
      (.confirmedOk (user.balance + d.amount),
        { st with
            deposits := Persist.putDeposit
              { d with status := .confirmed, confirmedAt := some now } st.deposits,
            users := Persist.applyReferral d.amount d.user
              (Persist.putUser { user with balance := user.balance + d.amount } st.users) }) := by
    simp only [Persist.confirmDeposit, hd, if_neg hstatus, hu]
  have hputfind : Persist.findUserByEmail
      (Persist.putUser { user with balance := user.balance + d.amount } st.users) d.user
      = some { user with balance := user.balance + d.amount } := by
    have := Persist.findUserByEmail_putUser_self
      { user with balance := user.balance + d.amount } st.users
    simpa [he] using this
  have happly : Persist.applyReferral d.amount d.user
      (Persist.putUser { user with balance := user.balance + d.amount } st.users)
      = Persist.putUser { user with balance := user.balance + d.amount } st.users := by
    simp only [Persist.applyReferral, hputfind]
    simp [href]
  have hfind2 : Persist.findDeposit
      (Persist.putDeposit { d with status := .confirmed, confirmedAt := some now } st.deposits)
      depositId = some { d with status := .confirmed, confirmedAt := some now } := by
    have := Persist.findDeposit_putDeposit_self
      { d with status := .confirmed, confirmedAt := some now } st.deposits
    simpa [hid] using this
  refine ⟨by rw [hst1], ?_, ?_⟩
  · rw [hst1]
    simp only []
    rw [happly]
    exact hputfind
  · rw [hst1]
    simp only [Persist.confirmDeposit, hfind2]
    simp

/-- C2 witness: the idempotent admin confirmation evaluated on the fixture
state — one 100-KES credit, and the second confirm is a no-op. -/
theorem C2_witness :
    ((Persist.confirmDeposit "d1" 5 Persist.exSt).1
        = .confirmedOk (Persist.exUser.balance + Persist.exDeposit.amount)) ∧
    (Persist.findUserByEmail (Persist.confirmDeposit "d1" 5 Persist.exSt).2.users
        Persist.exDeposit.user
        = some { Persist.exUser with
                   balance := Persist.exUser.balance + Persist.exDeposit.amount }) ∧
    (Persist.confirmDeposit "d1" 6 (Persist.confirmDeposit "d1" 5 Persist.exSt).2
        = (.alreadyConfirmed, (Persist.confirmDeposit "d1" 5 Persist.exSt).2)) :=
  C2_claim Persist.exSt "d1" 5 6 Persist.exDeposit Persist.exUser rfl (by decide) rfl rfl

/-- C3 (as stated, refuted): the Telegram `withdraw_approve` handler has no
already-approved guard — approving the same 200-KES request twice debits
`earning` twice (1000 becomes 600, not 800), and the second call still answers
with the approval message rather than reporting it processed. -/
theorem C3_cex :
    ((Mongo.tgWithdrawApprove "w1"
        (Mongo.tgWithdrawApprove "w1" Mongo.exStApprove).2).2).users.map
      (fun u => u.earning) = [600] ∧
    (Mongo.tgWithdrawApprove "w1" (Mongo.tgWithdrawApprove "w1" Mongo.exStApprove).2).1
      = .approvedOk :=
  ⟨rfl, rfl⟩

/-- C3 (amended): the admin HTTP approve endpoint of the persist server
re-checks `balance ≥ amount` at approval time (this server tracks a single
`balance`, not a separate earning field), debits it, moves the request to the
terminal approved state, and a second approve of the same id reports
already-processed with no state change — exactly one debit.  The Telegram
approve handler lacks the terminal-state guard (see the counterexample). -/
theorem C3_claim (st : Persist.St) (id : String) (now now2 : Int)
    (w : Persist.Withdrawal) (user : Persist.User)
    (hw : Persist.findWithdrawal st.withdrawals id = some w)
    (hpend : w.status = .pending)
    (hu : Persist.findUserByEmail st.users w.user = some user)
    (hbal : w.amount ≤ user.balance) :
    ((Persist.approveWithdrawal id now st).1 = .approvedOk (user.balance - w.amount)) ∧
    (Persist.findUserByEmail (Persist.approveWithdrawal id now st).2.users w.user
        = some { user with balance := user.balance - w.amount }) ∧
    (Persist.approveWithdrawal id now2 (Persist.approveWithdrawal id now st).2
        = (.alreadyProcessed, (Persist.approveWithdrawal id now st).2)) := by
  have hid : w.id = id := by
    have := List.find?_some hw
    simpa using this
  have he : user.email = w.user := by
    have := List.find?_some hu
    simpa using this
  have hnlt : ¬ (user.balance < w.amount) := by omega
  have hst1 : Persist.approveWithdrawal id now st =
      (.approvedOk (user.balance - w.amount),
        { st with
            users := Persist.putUser { user with balance := user.balance - w.amount } st.users,
            withdrawals := Persist.putWithdrawal
              { w with status := .approved, approvedAt := some now } st.withdrawals }) := by
    simp only [Persist.approveWithdrawal, hw, hpend, hu, hnlt]
    simp
  have hput : Persist.findUserByEmail
      (Persist.putUser { user with balance := user.balance - w.amount } st.users) w.user
      = some { user with balance := user.balance - w.amount } := by
    have := Persist.findUserByEmail_putUser_self
      { user with balance := user.balance - w.amount } st.users
    simpa [he] using this
  have hfind2 : Persist.findWithdrawal
      (Persist.putWithdrawal { w with status := .approved, approvedAt := some now } st.withdrawals)
      id = some { w with status := .approved, approvedAt := some now } := by
    have := Persist.findWithdrawal_putWithdrawal_self
      { w with status := .approved, approvedAt := some now } st.withdrawals
    simpa [hid] using this
  refine ⟨by rw [hst1], ?_, ?_⟩
  · rw [hst1]
    exact hput
  · rw [hst1]
    simp only [Persist.approveWithdrawal, hfind2]
    simp

/-- C3 witness: the idempotent admin approval evaluated on the fixture state
(balance 1000, request 300): one debit to 700, second call a no-op. -/
theorem C3_witness :
    ((Persist.approveWithdrawal "w1" 5 Persist.exStW).1 = .approvedOk (1000 - 300)) ∧
    (Persist.findUserByEmail (Persist.approveWithdrawal "w1" 5 Persist.exStW).2.users
        Persist.exWithdrawal.user
        = some { Persist.exUser with balance := 1000 - 300 }) ∧
    (Persist.approveWithdrawal "w1" 6 (Persist.approveWithdrawal "w1" 5 Persist.exStW).2
        = (.alreadyProcessed, (Persist.approveWithdrawal "w1" 5 Persist.exStW).2)) :=
  C3_claim Persist.exStW "w1" 5 6 Persist.exWithdrawal { Persist.exUser with balance := 1000 }
    rfl rfl rfl (by decide)

/-- C4: evaluation of the accrual job at the failing input.  An account
holding one time-boxed offer fridge (price 300, one-hour duration unlocked at
time 0) is paid the one-time price on EVERY run once the duration has elapsed:
the run at two hours credits 300, and a second run at three hours credits 300
again (600 total), contradicting the at-most-once payout. -/
theorem C4_claim :
    (Mongo.run Mongo.init [.register "n" "u" "p" "07" 0, .unlock "offer1" 300 0 1 0,
      .paySubmit "u" "offer1" "07" "tx" "p1" 5, .tgPayApprove "p1" 6,
      .daily 7200000]).users.map (fun u => u.earning) = [300] ∧
    (Mongo.run Mongo.init [.register "n" "u" "p" "07" 0, .unlock "offer1" 300 0 1 0,
      .paySubmit "u" "offer1" "07" "tx" "p1" 5, .tgPayApprove "p1" 6,
      .daily 7200000, .daily 10800000]).users.map (fun u => u.earning) = [600] :=
  ⟨rfl, rfl⟩

/-- C5: the persist-server cron guard.  A completing run at time `t` records
`lastDailyRun = t`, and any subsequent run starting before `t + 20h` returns
without touching the state. -/
theorem C5_claim (st : Persist.St) (t tt : Int)
    (h1 : ¬ (t - st.lastDailyRun < 20 * 60 * 60 * 1000))
    (h2 : tt - t < 20 * 60 * 60 * 1000) :
    (Persist.dailyCron t st).lastDailyRun = t ∧
    Persist.dailyCron tt (Persist.dailyCron t st) = Persist.dailyCron t st := by
  have hrun : (Persist.dailyCron t st).lastDailyRun = t := by
    simp only [Persist.dailyCron, if_neg h1]
  refine ⟨hrun, ?_⟩
  have hc : tt - (Persist.dailyCron t st).lastDailyRun < 20 * 60 * 60 * 1000 := by
    rw [hrun]
    exact h2
  conv_lhs => rw [Persist.dailyCron]
  rw [if_pos hc]

/-- C5 witness: the guard evaluated from the initial state — a run at
100000000 ms records its time, and a run 1 ms later changes nothing. -/
theorem C5_witness :
    (Persist.dailyCron 100000000 Persist.init).lastDailyRun = 100000000 ∧
    Persist.dailyCron 100000001 (Persist.dailyCron 100000000 Persist.init)
      = Persist.dailyCron 100000000 Persist.init :=
  C5_claim Persist.init 100000000 100000001 (by decide) (by decide)

/-- C6 (as stated, refuted): one accrual run does not always increase
`earning` by exactly the non-offer sum — a user holding an elapsed unlocked
offer fridge (price 300) gains 300 while the sum of catalog `dailyEarn` over
the non-offer holdings is 0. -/
theorem C6_cex :
    (Mongo.runDailyForUser Mongo.exOfferCatalog 7200000 Mongo.exHolder).earning = 300 ∧
    Mongo.nonOfferSum Mongo.exOfferCatalog Mongo.exHolder.fridges = 0 :=
  ⟨rfl, rfl⟩

/-- C6 (amended): one accrual run increases the `earning` of an account by the sum
of the catalog `dailyEarn` over its non-offer holdings (holdings missing from
the catalog contribute 0) PLUS the one-time prices of its elapsed offer
holdings; in particular an account holding one fridge with `dailyEarn = 25`
and no offer fridges gains exactly 25, both per-user and through a full job
run. -/
theorem C6_claim :
    (∀ (catalog : List Mongo.Fridge) (now : Int) (u : Mongo.User),
        (Mongo.runDailyForUser catalog now u).earning
          = u.earning + Mongo.nonOfferSum catalog u.fridges
              + Mongo.offerPayoutSum catalog now u.fridges) ∧
    ((Mongo.runDailyForUser Mongo.initFRIDGES 99 Mongo.exHolder25).earning
        = Mongo.exHolder25.earning + 25) ∧
    ((Mongo.runDailyEarnings 99 Mongo.exSt25).users.map (fun u => u.earning) = [32]) := by
  refine ⟨?_, rfl, rfl⟩
  intro catalog now u
  unfold Mongo.runDailyForUser
  simp only
  rw [Mongo.userDailyEarn_split]
  ring

/-- C7 (as stated, refuted): the prototype apply-offer endpoint
(`src/unnamed/part_000`) tracks no per-account usage — a second application of
the `BITFREEZE` code from the same account is accepted again and the account
gains 200, not 100. -/
theorem C7_cex :
    ((Part0.applyOffer "u" "bitfreeze"
        (Part0.applyOffer "u" "BITFREEZE" [Part0.exUser]).2).1 = .applied) ∧
    ((Part0.applyOffer "u" "bitfreeze"
        (Part0.applyOffer "u" "BITFREEZE" [Part0.exUser]).2).2).map
      (fun u => u.earning) = [200] :=
  ⟨rfl, rfl⟩

/-- C7 (amended): for the OfferCode-backed redemption endpoint of
`src/index.js`, a first redemption credits the code amount once and records
the account in `usedBy`; every later attempt from that account is rejected
with already-used and leaves the state fixed, so the earning increases exactly
once over any sequence of attempts.  The `part_000` dummy endpoint has no such
guard (see the counterexample). -/
theorem C7_claim (st : Mongo.St) (email code : String) (user : Mongo.User)
    (offer : Mongo.OfferCode)
    (hc : code ≠ "")
    (hu : Mongo.findUser st.users email = some user)
    (ho : st.offerCodes.find? (·.code == code) = some offer)
    (hun : offer.usedBy.contains user.email = false) :
    ((Mongo.offerRedeem email code st).1 = .redeemed offer.amount) ∧
    (Mongo.findUser (Mongo.offerRedeem email code st).2.users email
        = some { user with earning := user.earning + offer.amount }) ∧
    (Mongo.offerRedeem email code (Mongo.offerRedeem email code st).2
        = (.alreadyUsed, (Mongo.offerRedeem email code st).2)) ∧
    (∀ n, (fun s => (Mongo.offerRedeem email code s).2)^[n]
        ((Mongo.offerRedeem email code st).2) = (Mongo.offerRedeem email code st).2) := by
  have he : user.email = email := by
    have := List.find?_some hu
    simpa using this
  have hcode : offer.code = code := by
    have := List.find?_some ho
    simpa using this
  have hst1 : Mongo.offerRedeem email code st =
      (.redeemed offer.amount,
        { st with
            users := Mongo.saveUser { user with earning := user.earning + offer.amount } st.users,
            offerCodes := Mongo.saveOffer { offer with usedBy := offer.usedBy ++ [user.email] }
              st.offerCodes }) := by
    simp only [Mongo.offerRedeem, if_neg hc, hu, ho, hun]
    simp
  have hput : Mongo.findUser
      (Mongo.saveUser { user with earning := user.earning + offer.amount } st.users) email
      = some { user with earning := user.earning + offer.amount } := by
    have := Mongo.findUser_saveUser_self { user with earning := user.earning + offer.amount }
      st.users user (by simpa [he] using hu)
    simpa [he] using this
  have hoff2 : (Mongo.saveOffer { offer with usedBy := offer.usedBy ++ [user.email] }
      st.offerCodes).find? (·.code == code)
      = some { offer with usedBy := offer.usedBy ++ [user.email] } := by
    have := Mongo.find?_saveOffer_self { offer with usedBy := offer.usedBy ++ [user.email] }
      st.offerCodes offer (by simpa [hcode] using ho)
    simpa [hcode] using this
  have hsecond : Mongo.offerRedeem email code (Mongo.offerRedeem email code st).2
      = (.alreadyUsed, (Mongo.offerRedeem email code st).2) := by
    rw [hst1]
    simp only [Mongo.offerRedeem, if_neg hc, hput, hoff2]
    simp
  refine ⟨by rw [hst1], by rw [hst1]; exact hput, hsecond, ?_⟩
  intro n
  induction n with
  | zero => simp
  | succ k ih =>
    rw [Function.iterate_succ_apply]
    simp only [hsecond]
    exact ih

/-- C7 witness: a 75-KES code redeemed from the fixture state — credited once,
then rejected on the repeat and fixed under five further attempts. -/
theorem C7_witness :
    ((Mongo.offerRedeem "u" "XMAS"
        { Mongo.exStApprove with offerCodes := [⟨"XMAS", 75, []⟩] }).1 = .redeemed 75) ∧
    (Mongo.findUser (Mongo.offerRedeem "u" "XMAS"
        { Mongo.exStApprove with offerCodes := [⟨"XMAS", 75, []⟩] }).2.users "u"
        = some { Mongo.exUser with earning := Mongo.exUser.earning + 75 }) ∧
    (Mongo.offerRedeem "u" "XMAS" (Mongo.offerRedeem "u" "XMAS"
        { Mongo.exStApprove with offerCodes := [⟨"XMAS", 75, []⟩] }).2
      = (.alreadyUsed, (Mongo.offerRedeem "u" "XMAS"
        { Mongo.exStApprove with offerCodes := [⟨"XMAS", 75, []⟩] }).2)) ∧
    ((fun s => (Mongo.offerRedeem "u" "XMAS" s).2)^[5]
        ((Mongo.offerRedeem "u" "XMAS"
          { Mongo.exStApprove with offerCodes := [⟨"XMAS", 75, []⟩] }).2)
      = (Mongo.offerRedeem "u" "XMAS"
          { Mongo.exStApprove with offerCodes := [⟨"XMAS", 75, []⟩] }).2) := by
  have h := C7_claim { Mongo.exStApprove with offerCodes := [⟨"XMAS", 75, []⟩] }
    "u" "XMAS" Mongo.exUser ⟨"XMAS", 75, []⟩ (by decide) rfl rfl rfl
  exact ⟨h.1, h.2.1, h.2.2.1, h.2.2.2 5⟩

/-- C8: the referral reward of `src/Index.js`.  When the depositor has no
`referredBy`, or it resolves to no account, or no rule threshold is at or
below the amount, no balance changes; when referrer and rule exist, exactly
the balance of the referrer is credited, with the reward of the matching rule of
maximal threshold (the first match in the descending table). -/
theorem C8_claim (users : List Persist.User) (amount : Int) (email : String) :
    (∀ user, Persist.findUserByEmail users email = some user → user.referredBy = none →
        Persist.applyReferral amount email users = users) ∧
    (∀ user rb, Persist.findUserByEmail users email = some user →
        user.referredBy = some rb → Persist.findReferrer users rb = none →
        Persist.applyReferral amount email users = users) ∧
    (∀ user rb refUser, Persist.findUserByEmail users email = some user →
        user.referredBy = some rb → Persist.findReferrer users rb = some refUser →
        Persist.REFERRAL_RULES.find? (fun r => decide (r.min ≤ amount)) = none →
        Persist.applyReferral amount email users = users) ∧
    (∀ user rb refUser rule, Persist.findUserByEmail users email = some user →
        user.referredBy = some rb → Persist.findReferrer users rb = some refUser →
        Persist.REFERRAL_RULES.find? (fun r => decide (r.min ≤ amount)) = some rule →
        (Persist.findUserByEmail (Persist.applyReferral amount email users) refUser.email
            = some { refUser with balance := refUser.balance + rule.reward }) ∧
        (∀ e, e ≠ refUser.email →
            Persist.findUserByEmail (Persist.applyReferral amount email users) e
              = Persist.findUserByEmail users e) ∧
        rule.min ≤ amount ∧
        (∀ r ∈ Persist.REFERRAL_RULES, r.min ≤ amount → r.min ≤ rule.min)) := by
  refine ⟨?_, ?_, ?_, ?_⟩
  · intro user hu hrb
    simp only [Persist.applyReferral, hu, hrb]
  · intro user rb hu hrb href
    simp only [Persist.applyReferral, hu, hrb, href]
  · intro user rb refUser hu hrb href hrule
    simp only [Persist.applyReferral, hu, hrb, href, hrule]
  · intro user rb refUser rule hu hrb href hrule
    have happ : Persist.applyReferral amount email users
        = Persist.putUser { refUser with balance := refUser.balance + rule.reward } users := by
      simp only [Persist.applyReferral, hu, hrb, href, hrule]
    obtain ⟨hmin, hmax⟩ := Persist.referral_rule_max amount rule hrule
    refine ⟨?_, ?_, hmin, hmax⟩
    · rw [happ]
      have := Persist.findUserByEmail_putUser_self
        { refUser with balance := refUser.balance + rule.reward } users
      simpa using this
    · intro e hne
      rw [happ]
      refine Persist.findUserByEmail_putUser_ne _ users e ?_
      simpa using fun h => hne h.symm

/-- C8 witness: the scenario of the spec — a 1000-KES deposit by a user
referred via `CODE7` credits the referrer with exactly the 1000-threshold
reward of 100 (balance 10 to 110), and the stored record of the depositor itself is
untouched. -/
theorem C8_witness :
    (Persist.findUserByEmail
        (Persist.applyReferral 1000 "u" Persist.exUsersRef) Persist.exReferrer.email
      = some { Persist.exReferrer with balance := Persist.exReferrer.balance + 100 }) ∧
    (Persist.findUserByEmail (Persist.applyReferral 1000 "u" Persist.exUsersRef) "u"
      = Persist.findUserByEmail Persist.exUsersRef "u") := by
  have h := (C8_claim Persist.exUsersRef 1000 "u").2.2.2 Persist.exReferred "CODE7"
    Persist.exReferrer ⟨1000, 100⟩ rfl rfl rfl (by decide)
  exact ⟨h.1, h.2.1 "u" (by decide)⟩

/-- C9 (as stated, refuted): the withdrawal preconditions are not evaluated
with the minimum-amount check first — on a request of 100 KES (below the 200
minimum) made while a pending withdrawal sits inside the 24h cooldown, the
code answers with the pending-withdrawal error, where the claimed order
predicts the invalid-amount error. -/
theorem C9_cex :
    ((Mongo.withdrawRequest "u" "0707" 100 1000 3 "w1" Mongo.exStCooldown).1
        = .error .pendingExists) ∧
    (Mongo.claimWithdrawChecks Mongo.exUserCooldown Mongo.exStCooldown.withdrawals
        "0707" 100 1000 3 = .error .invalidAmount) ∧
    Mongo.WErr.pendingExists ≠ Mongo.WErr.invalidAmount :=
  ⟨rfl, rfl, by decide⟩

/-- C9 (amended): for an existing account the withdrawal endpoint evaluates
its preconditions in the order cooldown (no pending withdrawal within 24h),
then amount validity (nonempty phone, nonzero amount, at least the 200
minimum), then registered-phone match, then the Monday-to-Friday window, then
`earning ≥ amount` — first failure determines the error — and any failing
request creates no withdrawal record and leaves the state unchanged. -/
theorem C9_claim (st : Mongo.St) (email phone : String) (amount now : Int) (day : Nat)
    (wid : String) (user : Mongo.User) (hu : Mongo.findUser st.users email = some user) :
    ((Mongo.withdrawRequest email phone amount now day wid st).1.map (fun _ => ())
        = Mongo.amendedWithdrawChecks user st.withdrawals phone amount now day) ∧
    (∀ e, (Mongo.withdrawRequest email phone amount now day wid st).1 = .error e →
        (Mongo.withdrawRequest email phone amount now day wid st).2 = st) := by
  constructor
  · simp only [Mongo.withdrawRequest, hu, Mongo.amendedWithdrawChecks, Mongo.firstErr]
    by_cases hcd : Mongo.withdrawCooldown user st.withdrawals now
    · simp [Except.map, hcd]
    · by_cases hph : phone = ""
      · simp [Except.map, hcd, hph]
      · by_cases h0 : amount = 0
        · simp [Except.map, hcd, hph, h0]
        · by_cases h200 : amount < 200
          · simp [Except.map, hcd, hph, h0, h200]
          · by_cases hpm : user.phone = phone
            · by_cases hd0 : day = 0
              · simp [Except.map, hcd, hph, h0, h200, hpm, hd0]
              · by_cases hd6 : day = 6
                · simp [Except.map, hcd, hph, h0, h200, hpm, hd0, hd6]
                · by_cases hearn : user.earning < amount
                  · simp [Except.map, hcd, hph, h0, h200, hpm, hd0, hd6, hearn]
                  · simp [Except.map, hcd, hph, h0, h200, hpm, hd0, hd6, hearn]
            · simp [Except.map, hcd, hph, h0, h200, hpm]
  · intro e
    simp only [Mongo.withdrawRequest, hu]
    by_cases hcd : Mongo.withdrawCooldown user st.withdrawals now
    · simp [hcd]
    · by_cases hph : phone = ""
      · simp [hcd, hph]
      · by_cases h0 : amount = 0
        · simp [hcd, hph, h0]
        · by_cases h200 : amount < 200
          · simp [hcd, hph, h0, h200]
          · by_cases hpm : user.phone = phone
            · by_cases hd0 : day = 0
              · simp [hcd, hph, h0, h200, hpm, hd0]
              · by_cases hd6 : day = 6
                · simp [hcd, hph, h0, h200, hpm, hd0, hd6]
                · by_cases hearn : user.earning < amount
                  · simp [hcd, hph, h0, h200, hpm, hd0, hd6, hearn]
                  · simp [hcd, hph, h0, h200, hpm, hd0, hd6, hearn]
            · simp [hcd, hph, h0, h200, hpm]

/-- C9 witness: the order equation and the no-mutation-on-error clause
evaluated on the cooldown fixture (the run that also serves as the
counterexample input). -/
theorem C9_witness :
    ((Mongo.withdrawRequest "u" "0707" 100 1000 3 "w1" Mongo.exStCooldown).1.map (fun _ => ())
        = Mongo.amendedWithdrawChecks Mongo.exUserCooldown Mongo.exStCooldown.withdrawals
            "0707" 100 1000 3) ∧
    ((Mongo.withdrawRequest "u" "0707" 100 1000 3 "w1" Mongo.exStCooldown).2
        = Mongo.exStCooldown) := by
  have h := C9_claim Mongo.exStCooldown "u" "0707" 100 1000 3 "w1" Mongo.exUserCooldown rfl
  exact ⟨h.1, h.2 .pendingExists rfl⟩

/-- C10 (as stated, refuted): the Mongo variant of `/api/me` returns the
stored user document unchanged, so the response carries the bcrypt password
hash of the fixture user. -/
theorem C10_cex :
    (Mongo.apiMe "u" Mongo.exStApprove).map (fun fields => fields.lookup "password")
      = some (some (.s "hash123")) :=
  rfl

/-- C10 (amended): the persist-server `/api/me` strips the password via the
rest-spread before responding: for any existing account the response object
has no `password` key while every other profile field (email, phone, balance,
fridges, referral data, timestamps) is present with the stored value.  The
Mongo variants return the full document, hash included (see the
counterexample). -/
theorem C10_claim (st : Persist.St) (email : String) (user : Persist.User)
    (hu : Persist.findUserByEmail st.users email = some user) :
    ∃ fields, Persist.apiMe email st = some fields ∧
      fields.lookup "password" = none ∧
      fields.lookup "email" = some (.s user.email) ∧
      fields.lookup "phone" = some (.optS user.phone) ∧
      fields.lookup "balance" = some (.n user.balance) ∧
      fields.lookup "fridges" = some (.holdings user.fridges) ∧
      fields.lookup "refCode" = some (.s user.refCode) ∧
      fields.lookup "referredBy" = some (.optS user.referredBy) ∧
      fields.lookup "lastDailyCredit" = some (.n user.lastDailyCredit) ∧
      fields.lookup "createdAt" = some (.n user.createdAt) := by
  refine ⟨(Persist.userJson user).filter (fun kv => kv.1 ≠ "password"),
    by simp only [Persist.apiMe, hu], ?_⟩
  simp [Persist.userJson, List.lookup]

/-- C10 witness: the password-free profile response evaluated on the fixture
state. -/
theorem C10_witness :
    ∃ fields, Persist.apiMe "u" Persist.exSt = some fields ∧
      fields.lookup "password" = none ∧
      fields.lookup "email" = some (.s Persist.exUser.email) ∧
      fields.lookup "phone" = some (.optS Persist.exUser.phone) ∧
      fields.lookup "balance" = some (.n Persist.exUser.balance) ∧
      fields.lookup "fridges" = some (.holdings Persist.exUser.fridges) ∧
      fields.lookup "refCode" = some (.s Persist.exUser.refCode) ∧
      fields.lookup "referredBy" = some (.optS Persist.exUser.referredBy) ∧
      fields.lookup "lastDailyCredit" = some (.n Persist.exUser.lastDailyCredit) ∧
      fields.lookup "createdAt" = some (.n Persist.exUser.createdAt) :=
  C10_claim Persist.exSt "u" Persist.exUser rfl

end Bitfreeze
